import Mathlib

/-!
Shallow embedding of the Athens backend's Adaptive Assessment Engine:
the quiz/pretest decoders (`_extract_json`, `_parse_quiz_response`,
`_parse_pretest_response`), the grader and analyzers, the mastery
aggregator (`StrengthWeaknessStorage.update_student_performance`), the
storage operations (`QuizStorage`, `PretestStorage`), and the service
entry points (`QuizService.submit_quiz`, `QuizService.check_week_lock_status`,
`PretestService.submit_pretest`, `PretestService._generate_recommendation`).

Python dicts are embedded as insertion-ordered association lists, JSON
numbers as integers (the payload shapes under study carry only integral
numbers), fractional arithmetic as `ℚ`, and fallible code as `Except`.
Nondeterministic inputs (uuid-based ids, timestamps, generator output)
are passed as explicit parameters.
-/

deriving instance DecidableEq for Except

namespace Athens

/-- Generic JSON tree, the result of a strict `json.loads`. -/
inductive Json where
  | null : Json
  | bool (b : Bool) : Json
  | num (n : Int) : Json
  | str (s : String) : Json
  | arr (elems : List Json) : Json
  | obj (members : List (String × Json)) : Json
deriving Repr, Inhabited

/-- Key lookup on a decoded JSON object.  Python's `json.loads` builds a
dict, so a duplicated key keeps its last value; `dict.get` therefore
returns the last binding. -/
def jsonLookup (members : List (String × Json)) (key : String) : Option Json :=
  members.foldl (fun acc kv => if kv.1 = key then some kv.2 else acc) none

/-- Python truthiness of a decoded JSON value (`if not questions_list:`). -/
def Json.isFalsy : Json → Bool
  | .null => true
  | .bool b => !b
  | .num n => n == 0
  | .str s => s == ""
  | .arr xs => xs.isEmpty
  | .obj kvs => kvs.isEmpty

/-- JSON insignificant whitespace, as accepted between tokens by `json.loads`. -/
def skipWs : List Char → List Char
  | [] => []
  | c :: rest =>
    if c = ' ' ∨ c = '\t' ∨ c = '\n' ∨ c = '\r' then skipWs rest else c :: rest

def hexVal? (c : Char) : Option Nat :=
  if '0' ≤ c ∧ c ≤ '9' then some (c.toNat - '0'.toNat)
  else if 'a' ≤ c ∧ c ≤ 'f' then some (c.toNat - 'a'.toNat + 10)
  else if 'A' ≤ c ∧ c ≤ 'F' then some (c.toNat - 'A'.toNat + 10)
  else none

/-- Strict JSON string body lexer (after the opening quote).  As in
Python's strict `json.loads`, a raw control character (code < 0x20)
inside a string literal is an error; escape sequences are decoded. -/
def lexString (fuel : Nat) (acc : List Char) (cs : List Char) :
    Except String (String × List Char) :=
  match fuel, cs with
  | 0, _ => .error "out of fuel"
  | _ + 1, [] => .error "Unterminated string"
  | fuel + 1, c :: rest =>
    if c = '"' then .ok (String.mk acc.reverse, rest)
    else if c = '\\' then
      match rest with
      | [] => .error "Unterminated string"
      | e :: rest2 =>
        if e = '"' then lexString fuel ('"' :: acc) rest2
        else if e = '\\' then lexString fuel ('\\' :: acc) rest2
        else if e = '/' then lexString fuel ('/' :: acc) rest2
        else if e = 'b' then lexString fuel (Char.ofNat 8 :: acc) rest2
        else if e = 'f' then lexString fuel (Char.ofNat 12 :: acc) rest2
        else if e = 'n' then lexString fuel ('\n' :: acc) rest2
        else if e = 'r' then lexString fuel ('\r' :: acc) rest2
        else if e = 't' then lexString fuel ('\t' :: acc) rest2
        else if e = 'u' then
          match rest2 with
          | h1 :: h2 :: h3 :: h4 :: rest3 =>
            match hexVal? h1, hexVal? h2, hexVal? h3, hexVal? h4 with
            | some a, some b, some c3, some d =>
              lexString fuel (Char.ofNat (((a * 16 + b) * 16 + c3) * 16 + d) :: acc) rest3
            | _, _, _, _ => .error "Invalid unicode escape"
          | _ => .error "Invalid unicode escape"
        else .error "Invalid escape"
    else if c.toNat < 32 then .error "Invalid control character"
    else lexString fuel (c :: acc) rest

def lexDigits : List Char → List Char × List Char
  | [] => ([], [])
  | c :: rest =>
    if c.isDigit then
      let (ds, r) := lexDigits rest
      (c :: ds, r)
    else ([], c :: rest)

def digitsToNat (ds : List Char) : Nat :=
  ds.foldl (fun acc c => acc * 10 + (c.toNat - '0'.toNat)) 0

/-- Integer literal lexer.  The payloads under study carry only integral
numbers, so fraction/exponent forms are rejected rather than modelled. -/
def lexNumber (cs : List Char) : Except String (Int × List Char) :=
  let core : List Char → Except String (Nat × List Char) := fun cs0 =>
    let (ds, r) := lexDigits cs0
    if ds.isEmpty then .error "Expecting value"
    else
      match r with
      | '.' :: _ => .error "unsupported number form"
      | 'e' :: _ => .error "unsupported number form"
      | 'E' :: _ => .error "unsupported number form"
      | _ => .ok (digitsToNat ds, r)
  match cs with
  | '-' :: rest => (core rest).map (fun p => (-(p.1 : Int), p.2))
  | _ => (core cs).map (fun p => ((p.1 : Int), p.2))

mutual

/-- Recursive-descent strict JSON value parser (fuel-indexed). -/
def parseValue (fuel : Nat) (cs : List Char) : Except String (Json × List Char) :=
  match fuel with
  | 0 => .error "out of fuel"
  | fuel + 1 =>
    match skipWs cs with
    | [] => .error "Expecting value"
    | '{' :: rest => parseObjBody fuel rest
    | '[' :: rest => parseArrBody fuel rest
    | '"' :: rest => (lexString (rest.length + 1) [] rest).map (fun p => (.str p.1, p.2))
    | 't' :: rest =>
      if rest.take 3 = ['r', 'u', 'e'] then .ok (.bool true, rest.drop 3)
      else .error "Expecting value"
    | 'f' :: rest =>
      if rest.take 4 = ['a', 'l', 's', 'e'] then .ok (.bool false, rest.drop 4)
      else .error "Expecting value"
    | 'n' :: rest =>
      if rest.take 3 = ['u', 'l', 'l'] then .ok (.null, rest.drop 3)
      else .error "Expecting value"
    | c :: rest =>
      if c = '-' ∨ c.isDigit then (lexNumber (c :: rest)).map (fun p => (.num p.1, p.2))
      else .error "Expecting value"

/-- Object body parser, positioned just after the opening brace. -/
def parseObjBody (fuel : Nat) (cs : List Char) : Except String (Json × List Char) :=
  match fuel with
  | 0 => .error "out of fuel"
  | fuel + 1 =>
    match skipWs cs with
    | '}' :: rest => .ok (.obj [], rest)
    | cs2 => parseMembers fuel cs2 []

def parseMembers (fuel : Nat) (cs : List Char) (acc : List (String × Json)) :
    Except String (Json × List Char) :=
  match fuel with
  | 0 => .error "out of fuel"
  | fuel + 1 =>
    match skipWs cs with
    | '"' :: rest =>
      match lexString (rest.length + 1) [] rest with
      | .error e => .error e
      | .ok (key, r1) =>
        match skipWs r1 with
        | ':' :: r2 =>
          match parseValue fuel r2 with
          | .error e => .error e
          | .ok (v, r3) =>
            match skipWs r3 with
            | ',' :: r4 => parseMembers fuel r4 (acc ++ [(key, v)])
            | '}' :: r4 => .ok (.obj (acc ++ [(key, v)]), r4)
            | _ => .error "Expecting comma or end of object"
        | _ => .error "Expecting colon"
    | _ => .error "Expecting property name"

/-- Array body parser, positioned just after the opening bracket. -/
def parseArrBody (fuel : Nat) (cs : List Char) : Except String (Json × List Char) :=
  match fuel with
  | 0 => .error "out of fuel"
  | fuel + 1 =>
    match skipWs cs with
    | ']' :: rest => .ok (.arr [], rest)
    | cs2 => parseElems fuel cs2 []

def parseElems (fuel : Nat) (cs : List Char) (acc : List Json) :
    Except String (Json × List Char) :=
  match fuel with
  | 0 => .error "out of fuel"
  | fuel + 1 =>
    match parseValue fuel cs with
    | .error e => .error e
    | .ok (v, r1) =>
      match skipWs r1 with
      | ',' :: r2 => parseElems fuel r2 (acc ++ [v])
      | ']' :: r2 => .ok (.arr (acc ++ [v]), r2)
      | _ => .error "Expecting comma or end of array"

end

/-- Strict parse of a whole document: one value, then only whitespace
(`json.loads` rejects trailing data). -/
def jsonParse (s : String) : Except String Json :=
  match parseValue (3 * s.data.length + 3) s.data with
  | .error e => .error e
  | .ok (v, rest) =>
    if (skipWs rest).isEmpty then .ok v else .error "Extra data"

/-- `QuizService._extract_json` / `PretestService._extract_json`: slice the
text from the first opening brace to the last closing brace; no character
is altered.  Fails when either brace is absent. -/
def extractJson (text : String) : Except String String :=
  let cs := text.data
  match cs.findIdx? (fun c => c = '{') with
  | none => .error "No valid JSON found in Gemini response"
  | some start =>
    match cs.reverse.findIdx? (fun c => c = '}') with
    | none => .error "No valid JSON found in Gemini response"
    | some rIdx =>
      let stop := cs.length - 1 - rIdx
      .ok (String.mk ((cs.drop start).take (stop + 1 - start)))

/-! ## Data model

`models.py` of this snapshot defines the pretest records but not the
weekly-quiz ones; the latter are modelled from the spec (§3) and from the
keyword-argument constructor calls in `quiz_service.py`, which exhibit
every field. -/

/-- Error taxonomy of §7; each constructor corresponds to one `raise`
site of the services (the Python code raises `ValueError` with a
distinguishing message at each of these sites). -/
inductive Err where
  | notFound : Err
  | scopeMismatch : Err
  | duplicateSubmission : Err
  | emptyResponse : Err
  | malformedResponse : Err
  | invalidJSON : Err
  | missingField : Err
  | questionCoercion (idx : Nat) : Err
  | badPayload : Err
  | generatorFailure : Err
deriving Repr, DecidableEq, Inhabited

/-- `models.PretestQuestion` (pydantic): plain typed fields, no range
validator relates `correctAnswer` to `options`. -/
structure PretestQuestion where
  id : String
  question : String
  options : List String
  correctAnswer : Int
  topicId : Option String
  topicTitle : Option String
deriving Repr, DecidableEq, Inhabited

/-- `models.Pretest`. -/
structure Pretest where
  id : String
  courseId : String
  questions : List PretestQuestion
  createdAt : String
  maxScore : Int
deriving Repr, DecidableEq, Inhabited

/-- `models.PretestAttempt`; `answers` is the submitted dict, embedded as
an association list with distinct keys. -/
structure PretestAttempt where
  id : String
  studentId : String
  courseId : String
  pretestId : String
  answers : List (String × Int)
  score : ℚ
  maxScore : ℚ
  percentage : ℚ
  completedAt : String
deriving Repr, DecidableEq, Inhabited

/-- `models.TopicPerformance` (pretest analysis breakdown entry). -/
structure TopicPerformance where
  topicId : String
  topicTitle : String
  questionsCount : Nat
  correctCount : Nat
  percentage : ℚ
  performanceLevel : String
deriving Repr, DecidableEq, Inhabited

/-- `models.PretestAnalysis`. -/
structure PretestAnalysis where
  overallScore : ℚ
  maxScore : ℚ
  percentage : ℚ
  performanceLevel : String
  topicBreakdown : List TopicPerformance
  strengths : List String
  weaknesses : List String
deriving Repr, DecidableEq, Inhabited

/-- `models.TopicRecommendation`. -/
structure TopicRecommendation where
  topicId : String
  topicTitle : String
  recommendation : String
  resourceUrl : String
  resourceType : String
deriving Repr, DecidableEq, Inhabited

/-- `models.PretestSubmissionRequest`. -/
structure PretestSubmissionRequest where
  studentId : String
  courseId : String
  pretestId : String
  answers : List (String × Int)
deriving Repr, DecidableEq, Inhabited

/-- `models.PretestResultResponse`. -/
structure PretestResultResponse where
  attempt : PretestAttempt
  analysis : PretestAnalysis
  recommendation : Option TopicRecommendation
deriving Repr, DecidableEq, Inhabited

/-- Modelled from the spec: the `WeeklyQuizQuestion` record is imported by
`quiz_service.py` but missing from this snapshot's `models.py`; fields
follow §3 (Question) and the constructor call in
`QuizService._parse_quiz_response`. -/
structure WeeklyQuizQuestion where
  id : String
  question : String
  options : List String
  correctAnswer : Int
  topicId : Option String
  topicTitle : Option String
  conceptId : Option String
  difficultyLevel : String
  isBonus : Bool
deriving Repr, DecidableEq, Inhabited

/-- Modelled from the spec: the `WeeklyQuiz` record (§3 QuestionSet);
fields follow the constructor calls in `QuizService.generate_*`. -/
structure WeeklyQuiz where
  id : String
  courseId : String
  weekNumber : Int
  quizType : String
  title : String
  description : String
  questions : List WeeklyQuizQuestion
  topicIds : List String
  createdAt : String
  maxScore : Int
deriving Repr, DecidableEq, Inhabited

/-- Modelled from the spec: the `QuizTopicPerformance` record (§3
Analysis breakdown entry); fields follow the constructor call in
`QuizService._generate_short_analysis`. -/
structure QuizTopicPerformance where
  topicId : String
  topicTitle : String
  questionsCount : Nat
  correctCount : Nat
  incorrectCount : Nat
  percentage : ℚ
  performanceLevel : String
deriving Repr, DecidableEq, Inhabited

/-- Modelled from the spec: the `QuizAnalysis` record (§3 Analysis);
fields follow the constructor call in
`QuizService._generate_short_analysis`. -/
structure QuizAnalysis where
  overallScore : ℚ
  maxScore : ℚ
  percentage : ℚ
  performanceLevel : String
  topicBreakdown : List QuizTopicPerformance
  correctCount : Nat
  incorrectCount : Nat
deriving Repr, DecidableEq, Inhabited

/-- Modelled from the spec: the `WeeklyQuizAttempt` record (§3 Attempt);
fields follow the constructor call in `QuizService.submit_quiz`. -/
structure WeeklyQuizAttempt where
  id : String
  studentId : String
  courseId : String
  weekNumber : Int
  quizId : String
  quizType : String
  answers : List (String × Int)
  score : ℚ
  maxScore : ℚ
  percentage : ℚ
  completedAt : String
  analysis : Option QuizAnalysis
deriving Repr, DecidableEq, Inhabited

/-- Modelled from the spec: the `StudentStrengthWeakness` record (§3
MasteryProfile); fields follow the constructor calls in
`StrengthWeaknessStorage`. -/
structure StudentStrengthWeakness where
  studentId : String
  courseId : String
  strengths : List String
  weaknesses : List String
  topicPerformance : List (String × ℚ)
  lastUpdated : String
deriving Repr, DecidableEq, Inhabited

/-- Modelled from the spec: the `QuizSubmissionRequest` record; fields
follow the reads in `QuizService.submit_quiz`. -/
structure QuizSubmissionRequest where
  studentId : String
  courseId : String
  weekNumber : Int
  quizType : String
  quizId : String
  answers : List (String × Int)
deriving Repr, DecidableEq, Inhabited

/-- Modelled from the spec: the `QuizSubmissionResponse` record; fields
follow the constructor call in `QuizService.submit_quiz`. -/
structure QuizSubmissionResponse where
  success : Bool
  message : String
  attempt : WeeklyQuizAttempt
  analysis : QuizAnalysis
deriving Repr, DecidableEq, Inhabited

/-- A curriculum topic as used for title lookup by the decoders
(`models.Topic`: id/title are the fields consulted). -/
structure TopicRef where
  id : String
  title : String
deriving Repr, DecidableEq, Inhabited

/-- The persisted JSON collections, one field per storage file
(`QuizStorage`, `StrengthWeaknessStorage`, `PretestStorage`). -/
structure State where
  quizzes : List WeeklyQuiz
  attempts : List WeeklyQuizAttempt
  performance : List StudentStrengthWeakness
  pretests : List Pretest
  pretestAttempts : List PretestAttempt
deriving Repr, DecidableEq, Inhabited

/-- Exact-rational embedding of Python's `(x / y * 100) if y > 0 else 0`
percentage pattern.  `mkRat` is used (rather than `ℚ` division) so that
the definition reduces inside the kernel; `pct100_eq_div` recovers the
division form. -/
def pct100 (x y : Nat) : ℚ :=
  if y > 0 then mkRat ((x : Int) * 100) y else 0

theorem pct100_eq_div (x y : Nat) (h : 0 < y) :
    pct100 x y = (x : ℚ) / (y : ℚ) * 100 := by
  rw [pct100, if_pos h, Rat.mkRat_eq_div]
  push_cast
  ring

theorem pct100_eq_hundred_mul (x y : Nat) (h : 0 < y) :
    pct100 x y = 100 * (x : ℚ) / (y : ℚ) := by
  rw [pct100_eq_div x y h]
  ring

/-! ## Response decoding -/

/-- `topic_map` built by the decoders: topic id to topic title. -/
def topicMapOf (topics : List TopicRef) : List (String × String) :=
  topics.map (fun t => (t.id, t.title))

def topicMapGet (tm : List (String × String)) (tid : String) : String :=
  match tm.find? (fun kv => kv.1 == tid) with
  | some kv => kv.2
  | none => ""

/-- Coerce a JSON value into a `List str` pydantic field. -/
def asStrList : List Json → Option (List String)
  | [] => some []
  | .str s :: rest => (asStrList rest).map (s :: ·)
  | _ :: _ => none

/-- `q_data.get("topicTitle") or topic_map.get(q_data.get("topicId", ""), "")`:
Python `or` falls through on a falsy left operand. -/
def titleOrMap (kvs : List (String × Json)) (tm : List (String × String)) :
    Except Unit String :=
  let tidKey := match jsonLookup kvs "topicId" with
    | some (.str s) => s
    | _ => ""
  let fromMap := topicMapGet tm tidKey
  match jsonLookup kvs "topicTitle" with
  | none => .ok fromMap
  | some .null => .ok fromMap
  | some (.bool false) => .ok fromMap
  | some (.num 0) => .ok fromMap
  | some (.str s) => .ok (if s = "" then fromMap else s)
  | some _ => .error ()

/-- Optional[str] pydantic field from a `dict.get` with default None. -/
def optStrField (kvs : List (String × Json)) (key : String) :
    Except Unit (Option String) :=
  match jsonLookup kvs key with
  | none => .ok none
  | some .null => .ok none
  | some (.str s) => .ok (some s)
  | some _ => .error ()

/-- str pydantic field from a `dict.get` with a string default. -/
def strFieldD (kvs : List (String × Json)) (key : String) (dflt : String) :
    Except Unit String :=
  match jsonLookup kvs key with
  | none => .ok dflt
  | some (.str s) => .ok s
  | some _ => .error ()

/-- int pydantic field from a `dict.get` with an integer default. -/
def intFieldD (kvs : List (String × Json)) (key : String) (dflt : Int) :
    Except Unit Int :=
  match jsonLookup kvs key with
  | none => .ok dflt
  | some (.num n) => .ok n
  | some _ => .error ()

/-- Build one `WeeklyQuizQuestion` from a payload entry, mirroring the
`q_data.get` defaults of `QuizService._parse_quiz_response`. -/
def coerceWeeklyQuestion (tm : List (String × String)) (idx : Nat) (j : Json) :
    Except Unit WeeklyQuizQuestion :=
  match j with
  | .obj kvs => do
    let id ← strFieldD kvs "id" (s!"q_{idx + 1}")
    let question ← strFieldD kvs "question" ""
    let options ← match jsonLookup kvs "options" with
      | none => Except.ok []
      | some (.arr xs) =>
        match asStrList xs with
        | some l => Except.ok l
        | none => Except.error ()
      | some _ => Except.error ()
    let correctAnswer ← intFieldD kvs "correctAnswer" 0
    let topicId ← optStrField kvs "topicId"
    let topicTitle ← titleOrMap kvs tm
    let conceptId ← optStrField kvs "conceptId"
    let difficultyLevel ← strFieldD kvs "difficultyLevel" "medium"
    let isBonus ← match jsonLookup kvs "isBonus" with
      | none => Except.ok false
      | some (.bool b) => Except.ok b
      | some _ => Except.error ()
    .ok { id := id, question := question, options := options,
          correctAnswer := correctAnswer, topicId := topicId,
          topicTitle := some topicTitle, conceptId := conceptId,
          difficultyLevel := difficultyLevel, isBonus := isBonus }
  | _ => .error ()

/-- The per-entry loop of `_parse_quiz_response`: the first entry that
fails to coerce fails the whole decode, naming its index. -/
def coerceWeeklyQuestions (tm : List (String × String)) (idx : Nat) :
    List Json → Except Err (List WeeklyQuizQuestion)
  | [] => .ok []
  | j :: rest =>
    match coerceWeeklyQuestion tm idx j with
    | .error _ => .error (.questionCoercion idx)
    | .ok q => (coerceWeeklyQuestions tm (idx + 1) rest).map (q :: ·)

/-- `QuizService._parse_quiz_response`: empty-response guard, brace slice,
strict parse, `questions` presence/non-emptiness check, per-entry
coercion, final none-created guard. -/
def parseQuizResponse (responseText : String) (topics : List TopicRef) :
    Except Err (List WeeklyQuizQuestion) :=
  if responseText = "" then .error .emptyResponse
  else
    match extractJson responseText with
    | .error _ => .error .malformedResponse
    | .ok jsonStr =>
      match jsonParse jsonStr with
      | .error _ => .error .invalidJSON
      | .ok (.obj kvs) =>
        match jsonLookup kvs "questions" with
        | none => .error .missingField
        | some v =>
          if v.isFalsy then .error .missingField
          else
            match v with
            | .arr qs =>
              match coerceWeeklyQuestions (topicMapOf topics) 0 qs with
              | .ok [] => .error .missingField
              | r => r
            | _ => .error .badPayload
      | .ok _ => .error .badPayload

/-- Per-entry loop of `_parse_pretest_response`; the pydantic constructor
is not wrapped in try/except, so a bad entry propagates as a raw error. -/
def coercePretestQuestions (tm : List (String × String)) (idx : Nat) :
    List Json → Except Err (List PretestQuestion)
  | [] => .ok []
  | j :: rest =>
    match j with
    | .obj kvs =>
      let r : Except Unit PretestQuestion := do
        let id ← strFieldD kvs "id" (s!"q_{idx + 1}")
        let question ← strFieldD kvs "question" ""
        let options ← match jsonLookup kvs "options" with
          | none => Except.ok []
          | some (.arr xs) =>
            match asStrList xs with
            | some l => Except.ok l
            | none => Except.error ()
          | some _ => Except.error ()
        let correctAnswer ← intFieldD kvs "correctAnswer" 0
        let topicId ← optStrField kvs "topicId"
        let topicTitle ← titleOrMap kvs tm
        .ok { id := id, question := question, options := options,
              correctAnswer := correctAnswer, topicId := topicId,
              topicTitle := some topicTitle }
      match r with
      | .error _ => .error (.questionCoercion idx)
      | .ok q => (coercePretestQuestions tm (idx + 1) rest).map (q :: ·)
    | _ => .error (.questionCoercion idx)

/-- `PretestService._parse_pretest_response`: brace slice, strict parse,
then `for q_data in data.get("questions", [])` — note there is no
presence or non-emptiness validation of `questions`; a missing key or an
empty array yields an empty question list. -/
def parsePretestResponse (responseText : String) (tm : List (String × String)) :
    Except Err (List PretestQuestion) :=
  match extractJson responseText with
  | .error _ => .error .malformedResponse
  | .ok jsonStr =>
    match jsonParse jsonStr with
    | .error _ => .error .invalidJSON
    | .ok (.obj kvs) =>
      match jsonLookup kvs "questions" with
      | none => .ok []
      | some (.arr qs) => coercePretestQuestions tm 0 qs
      | some _ => .error .badPayload
    | .ok _ => .error .badPayload

/-! ## Storage (`quiz_storage.py`, `strength_weakness_storage.py`,
`pretest_storage.py`) -/

/-- `QuizStorage.save_quiz`: drop any stored quiz with the same
(courseId, weekNumber, quizType) — whatever the type, `dynamic`
included — then append the new one. -/
def saveQuiz (s : State) (q : WeeklyQuiz) : State :=
  { s with quizzes :=
      (s.quizzes.filter (fun q0 =>
        !(q0.courseId == q.courseId && q0.weekNumber == q.weekNumber &&
          q0.quizType == q.quizType))) ++ [q] }

/-- `QuizStorage.get_quiz`: first stored quiz matching the key. -/
def getQuiz (s : State) (cid : String) (w : Int) (t : String) :
    Option WeeklyQuiz :=
  s.quizzes.find? (fun q =>
    q.courseId == cid && q.weekNumber == w && q.quizType == t)

/-- `QuizStorage.save_attempt`: plain append, never replaces. -/
def saveAttempt (s : State) (a : WeeklyQuizAttempt) : State :=
  { s with attempts := s.attempts ++ [a] }

def isMainAttemptFor (sid cid : String) (w : Int) (a : WeeklyQuizAttempt) :
    Bool :=
  a.studentId == sid && a.courseId == cid && a.weekNumber == w &&
    a.quizType == "main"

def isDynamicAttemptFor (sid cid : String) (w : Int) (a : WeeklyQuizAttempt) :
    Bool :=
  a.studentId == sid && a.courseId == cid && a.weekNumber == w &&
    a.quizType == "dynamic"

/-- `QuizStorage.has_completed_main_quiz`. -/
def hasCompletedMainQuiz (attempts : List WeeklyQuizAttempt)
    (sid cid : String) (w : Int) : Bool :=
  attempts.any (isMainAttemptFor sid cid w)

/-- `QuizStorage.get_main_quiz_score`: percentage of the first stored
main attempt for the key, if any. -/
def getMainQuizScore (attempts : List WeeklyQuizAttempt)
    (sid cid : String) (w : Int) : Option ℚ :=
  (attempts.find? (isMainAttemptFor sid cid w)).map (·.percentage)

/-- `QuizStorage.has_completed_dynamic_quiz`. -/
def hasCompletedDynamicQuiz (attempts : List WeeklyQuizAttempt)
    (sid cid : String) (w : Int) : Bool :=
  attempts.any (isDynamicAttemptFor sid cid w)

/-- `StrengthWeaknessStorage._save_performance`: replace-or-append keyed
by (studentId, courseId). -/
def savePerformance (ps : List StudentStrengthWeakness)
    (p : StudentStrengthWeakness) : List StudentStrengthWeakness :=
  (ps.filter (fun q =>
    !(q.studentId == p.studentId && q.courseId == p.courseId))) ++ [p]

/-- Read side of the performance store: first record for the key. -/
def lookupPerformance (s : State) (sid cid : String) :
    Option StudentStrengthWeakness :=
  s.performance.find? (fun p => p.studentId == sid && p.courseId == cid)

/-! ## Grader and weekly analyzer (`quiz_service.py`) -/

def answersGet (answers : List (String × Int)) (qid : String) : Option Int :=
  (answers.find? (fun kv => kv.1 == qid)).map (·.2)

/-- One grading test: `student_answer is not None and
student_answer == question.correctAnswer`. -/
def isHit (answers : List (String × Int)) (qid : String) (correct : Int) :
    Bool :=
  match answersGet answers qid with
  | some a => a == correct
  | none => false

/-- The grading loop of `submit_quiz` (count of matched questions). -/
def gradeScore (questions : List WeeklyQuizQuestion)
    (answers : List (String × Int)) : Nat :=
  match questions with
  | [] => 0
  | q :: rest =>
    (if isHit answers q.id q.correctAnswer then 1 else 0) +
      gradeScore rest answers

/-- Accumulator entry of the `topic_stats` dict in
`_generate_short_analysis` (the topic id is the key). -/
structure TopicStat where
  topicTitle : String
  questionsCount : Nat
  correctCount : Nat
  incorrectCount : Nat
deriving Repr, DecidableEq, Inhabited

/-- `topic_stats[topic_id]` creation/update for one question: insertion
ordered; the title is fixed by the first question of the topic. -/
def bumpStat (stats : List (String × TopicStat)) (tid title : String)
    (correct : Bool) : List (String × TopicStat) :=
  match stats with
  | [] =>
    [(tid, { topicTitle := title, questionsCount := 1,
             correctCount := if correct then 1 else 0,
             incorrectCount := if correct then 0 else 1 })]
  | (k, st) :: rest =>
    if k = tid then
      (k, { st with questionsCount := st.questionsCount + 1,
                    correctCount := st.correctCount + (if correct then 1 else 0),
                    incorrectCount :=
                      st.incorrectCount + (if correct then 0 else 1) }) :: rest
    else (k, st) :: bumpStat rest tid title correct

/-- Python `x or default` for optional strings (falsy on None and ""). -/
def orDefault (o : Option String) (dflt : String) : String :=
  match o with
  | some s => if s = "" then dflt else s
  | none => dflt

/-- The per-question accumulation loop of `_generate_short_analysis`. -/
def quizTopicStatsGo (stats : List (String × TopicStat)) :
    List WeeklyQuizQuestion → List (String × Int) → List (String × TopicStat)
  | [], _ => stats
  | q :: rest, answers =>
    quizTopicStatsGo
      (bumpStat stats (orDefault q.topicId "unknown")
        (orDefault q.topicTitle "Unknown Topic")
        (isHit answers q.id q.correctAnswer))
      rest answers

def quizTopicStats (questions : List WeeklyQuizQuestion)
    (answers : List (String × Int)) : List (String × TopicStat) :=
  quizTopicStatsGo [] questions answers

/-- Per-topic qualitative level of the weekly analyzer. -/
def weeklyTopicLevel (p : ℚ) : String :=
  if p ≥ 80 then "strong" else if p ≥ 60 then "moderate" else "weak"

def statToPerformance (kv : String × TopicStat) : QuizTopicPerformance :=
  let st := kv.2
  let p : ℚ := pct100 st.correctCount st.questionsCount
  { topicId := kv.1, topicTitle := st.topicTitle,
    questionsCount := st.questionsCount, correctCount := st.correctCount,
    incorrectCount := st.incorrectCount, percentage := p,
    performanceLevel := weeklyTopicLevel p }

/-- `QuizService._generate_short_analysis`. -/
def generateShortAnalysis (quiz : WeeklyQuiz) (answers : List (String × Int)) :
    QuizAnalysis :=
  let stats := quizTopicStats quiz.questions answers
  let breakdown := stats.map statToPerformance
  let totalCorrect := (stats.map (fun kv => kv.2.correctCount)).sum
  let totalIncorrect := (stats.map (fun kv => kv.2.incorrectCount)).sum
  let totalQuestions := totalCorrect + totalIncorrect
  let percentage : ℚ := pct100 totalCorrect totalQuestions
  let level :=
    if percentage < 60 then "fail"
    else if percentage < 85 then "below_moderate"
    else "moderate_plus"
  { overallScore := (totalCorrect : ℚ), maxScore := (totalQuestions : ℚ),
    percentage := percentage, performanceLevel := level,
    topicBreakdown := breakdown, correctCount := totalCorrect,
    incorrectCount := totalIncorrect }

/-! ## Mastery aggregator
(`StrengthWeaknessStorage.update_student_performance`) -/

/-- Accumulator entry of the aggregation dict (`totalCorrect`,
`totalAttempted`), keyed by topic id. -/
structure AggStat where
  totalCorrect : Nat
  totalAttempted : Nat
deriving Repr, DecidableEq, Inhabited

def bumpAgg (stats : List (String × AggStat)) (tid : String) (c q : Nat) :
    List (String × AggStat) :=
  match stats with
  | [] => [(tid, { totalCorrect := c, totalAttempted := q })]
  | (k, st) :: rest =>
    if k = tid then
      (k, { totalCorrect := st.totalCorrect + c,
            totalAttempted := st.totalAttempted + q }) :: rest
    else (k, st) :: bumpAgg rest tid c q

/-- One attempt's contribution: skipped when the attempt has no analysis
or an empty breakdown (the Python truthiness guard). -/
def aggAttempt (stats : List (String × AggStat)) (a : WeeklyQuizAttempt) :
    List (String × AggStat) :=
  match a.analysis with
  | none => stats
  | some an =>
    if an.topicBreakdown.isEmpty then stats
    else
      an.topicBreakdown.foldl
        (fun st tp => bumpAgg st tp.topicId tp.correctCount tp.questionsCount)
        stats

def aggregateStats (attempts : List WeeklyQuizAttempt) :
    List (String × AggStat) :=
  attempts.foldl aggAttempt []

/-- `(total_correct / total_attempted) * 100`; only consulted under the
`totalAttempted > 0` guard of the aggregator. -/
def aggPct (st : AggStat) : ℚ :=
  mkRat ((st.totalCorrect : Int) * 100) st.totalAttempted

theorem aggPct_eq (st : AggStat) (h : 0 < st.totalAttempted) :
    aggPct st = 100 * (st.totalCorrect : ℚ) / (st.totalAttempted : ℚ) := by
  rw [aggPct, Rat.mkRat_eq_div]
  push_cast
  ring

/-- `StrengthWeaknessStorage.update_student_performance` minus the final
save: filter the attempt log to the (student, course) pair, refold every
embedded analysis, classify topics with `totalAttempted > 0` into
strengths (>75) / weaknesses (<50) and record their percentages. -/
def recomputePerformance (sid cid now : String)
    (allAttempts : List WeeklyQuizAttempt) : StudentStrengthWeakness :=
  let mine := allAttempts.filter (fun a =>
    a.studentId == sid && a.courseId == cid)
  let stats := aggregateStats mine
  let strengths := stats.filterMap (fun kv =>
    if kv.2.totalAttempted > 0 ∧ aggPct kv.2 > 75 then some kv.1 else none)
  let weaknesses := stats.filterMap (fun kv =>
    if kv.2.totalAttempted > 0 ∧ ¬(aggPct kv.2 > 75) ∧ aggPct kv.2 < 50 then
      some kv.1
    else none)
  let topicPerformance := stats.filterMap (fun kv =>
    if kv.2.totalAttempted > 0 then some (kv.1, aggPct kv.2) else none)
  { studentId := sid, courseId := cid, strengths := strengths,
    weaknesses := weaknesses, topicPerformance := topicPerformance,
    lastUpdated := now }

/-- The save step of `update_student_performance`. -/
def updateStudentPerformance (s : State) (sid cid now : String) :
    State × StudentStrengthWeakness :=
  let perf := recomputePerformance sid cid now s.attempts
  ({ s with performance := savePerformance s.performance perf }, perf)

/-! ## Weekly quiz service entry points (`quiz_service.py`) -/

/-- `QuizService.submit_quiz`.  `newId` stands for the uuid-based attempt
id and `now` for the timestamp; failures return the store unchanged at
the point of the raise (no save precedes any raise). -/
def submitQuiz (s : State) (req : QuizSubmissionRequest) (newId now : String) :
    State × Except Err QuizSubmissionResponse :=
  match getQuiz s req.courseId req.weekNumber req.quizType with
  | none => (s, .error .notFound)
  | some quiz =>
    if quiz.id ≠ req.quizId then (s, .error .scopeMismatch)
    else if req.quizType = "main" ∧
        hasCompletedMainQuiz s.attempts req.studentId req.courseId
          req.weekNumber then
      (s, .error .duplicateSubmission)
    else
      let score := gradeScore quiz.questions req.answers
      let maxScore := quiz.questions.length
      let percentage : ℚ := pct100 score maxScore
      let analysis := generateShortAnalysis quiz req.answers
      let attempt : WeeklyQuizAttempt :=
        { id := newId, studentId := req.studentId, courseId := req.courseId,
          weekNumber := req.weekNumber, quizId := req.quizId,
          quizType := req.quizType, answers := req.answers,
          score := (score : ℚ), maxScore := (maxScore : ℚ),
          percentage := percentage, completedAt := now,
          analysis := some analysis }
      let s1 := saveAttempt s attempt
      let s2 := (updateStudentPerformance s1 req.studentId req.courseId now).1
      (s2, .ok { success := true, message := "Quiz submitted successfully",
                 attempt := attempt, analysis := analysis })

/-- `QuizService.check_week_lock_status`: a pure read over the attempt
store (its Python body only calls `_load_attempts`-backed queries). -/
def checkWeekLockStatus (s : State) (sid cid : String) (w : Int) : Bool :=
  if w ≤ 1 then false
  else
    if !hasCompletedMainQuiz s.attempts sid cid (w - 1) then false
    else
      match getMainQuizScore s.attempts sid cid (w - 1) with
      | none => false
      | some p =>
        if p ≥ 60 then false
        else !hasCompletedDynamicQuiz s.attempts sid cid (w - 1)

/-! ## Pretest service (`pretest_service.py`) -/

/-- The grading loop of `submit_pretest`. -/
def gradePretest (questions : List PretestQuestion)
    (answers : List (String × Int)) : Nat :=
  match questions with
  | [] => 0
  | q :: rest =>
    (if isHit answers q.id q.correctAnswer then 1 else 0) +
      gradePretest rest answers

/-- Accumulator entry of the `topic_stats` dict in `_generate_analysis`
(no incorrect counter on the pretest side). -/
structure PTopicStat where
  topicTitle : String
  questionsCount : Nat
  correctCount : Nat
deriving Repr, DecidableEq, Inhabited

def bumpPStat (stats : List (String × PTopicStat)) (tid title : String)
    (correct : Bool) : List (String × PTopicStat) :=
  match stats with
  | [] =>
    [(tid, { topicTitle := title, questionsCount := 1,
             correctCount := if correct then 1 else 0 })]
  | (k, st) :: rest =>
    if k = tid then
      (k, { st with questionsCount := st.questionsCount + 1,
                    correctCount :=
                      st.correctCount + (if correct then 1 else 0) }) :: rest
    else (k, st) :: bumpPStat rest tid title correct

def pretestTopicStatsGo (stats : List (String × PTopicStat)) :
    List PretestQuestion → List (String × Int) → List (String × PTopicStat)
  | [], _ => stats
  | q :: rest, answers =>
    pretestTopicStatsGo
      (bumpPStat stats (orDefault q.topicId "unknown")
        (orDefault q.topicTitle "Unknown Topic")
        (isHit answers q.id q.correctAnswer))
      rest answers

def pretestTopicStats (questions : List PretestQuestion)
    (answers : List (String × Int)) : List (String × PTopicStat) :=
  pretestTopicStatsGo [] questions answers

def pStatPct (st : PTopicStat) : ℚ :=
  pct100 st.correctCount st.questionsCount

/-- Pretest per-topic level: `strong` ≥80, `moderate` ≥60, else `weak`. -/
def pretestTopicLevel (p : ℚ) : String :=
  if p ≥ 80 then "strong" else if p ≥ 60 then "moderate" else "weak"

def pStatToPerformance (kv : String × PTopicStat) : TopicPerformance :=
  let p := pStatPct kv.2
  { topicId := kv.1, topicTitle := kv.2.topicTitle,
    questionsCount := kv.2.questionsCount, correctCount := kv.2.correctCount,
    percentage := p, performanceLevel := pretestTopicLevel p }

/-- `PretestService._generate_analysis`: breakdown plus title lists
collected in the same pass (strengths for strong topics, weaknesses for
weak ones); the overall band is taken from the attempt's percentage. -/
def generateAnalysis (pretest : Pretest) (attempt : PretestAttempt)
    (answers : List (String × Int)) : PretestAnalysis :=
  let stats := pretestTopicStats pretest.questions answers
  let breakdown := stats.map pStatToPerformance
  let strengths := stats.filterMap (fun kv =>
    if pStatPct kv.2 ≥ 80 then some kv.2.topicTitle else none)
  let weaknesses := stats.filterMap (fun kv =>
    if ¬(pStatPct kv.2 ≥ 80) ∧ ¬(pStatPct kv.2 ≥ 60) then
      some kv.2.topicTitle
    else none)
  let level :=
    if attempt.percentage < 70 then "fail"
    else if attempt.percentage < 85 then "below_moderate"
    else "moderate_plus"
  { overallScore := attempt.score, maxScore := attempt.maxScore,
    percentage := attempt.percentage, performanceLevel := level,
    topicBreakdown := breakdown, strengths := strengths,
    weaknesses := weaknesses }

/-- The weakest-topic loop of `_generate_recommendation`: running strict
minimum over weak-level entries, seeded with 100. -/
def selectLoopGo (bd : List TopicPerformance) (best : Option TopicPerformance)
    (lowest : ℚ) : Option TopicPerformance :=
  match bd with
  | [] => best
  | tp :: rest =>
    if tp.performanceLevel = "weak" ∧ tp.percentage < lowest then
      selectLoopGo rest (some tp) tp.percentage
    else selectLoopGo rest best lowest

/-- Topic selection of `_generate_recommendation`: early return on an
empty weaknesses list, then the weak-minimum loop, then the below-85
fallback scan. -/
def selectWeakestTopic (a : PretestAnalysis) : Option TopicPerformance :=
  if a.weaknesses.isEmpty then none
  else
    match selectLoopGo a.topicBreakdown none 100 with
    | some t => some t
    | none => a.topicBreakdown.find? (fun tp => decide (tp.percentage < 85))

/-- Decode of the single-object recommendation payload (the tail of
`_generate_recommendation`); the selected topic supplies the fallback id
and title for absent keys. -/
def parseRecommendation (fallbackId fallbackTitle : String) (resp : String) :
    Except Err TopicRecommendation :=
  match extractJson resp with
  | .error _ => .error .malformedResponse
  | .ok js =>
    match jsonParse js with
    | .error _ => .error .invalidJSON
    | .ok (.obj kvs) =>
      let r : Except Unit TopicRecommendation := do
        let topicId ← strFieldD kvs "topicId" fallbackId
        let topicTitle ← strFieldD kvs "topicTitle" fallbackTitle
        let recommendation ← strFieldD kvs "recommendation" ""
        let resourceUrl ← strFieldD kvs "resourceUrl" ""
        let resourceType ← strFieldD kvs "resourceType" "article"
        .ok { topicId := topicId, topicTitle := topicTitle,
              recommendation := recommendation, resourceUrl := resourceUrl,
              resourceType := resourceType }
      match r with
      | .error _ => .error .badPayload
      | .ok rec => .ok rec
    | .ok _ => .error .badPayload

/-- `PretestService._generate_recommendation`.  `genOut` is the outcome
of the external generator round-trip (the curriculum lookup it also
performs only feeds the prompt text and cannot affect the result). -/
def generateRecommendation (analysis : PretestAnalysis)
    (genOut : Except Unit String) : Except Err (Option TopicRecommendation) :=
  match selectWeakestTopic analysis with
  | none => .ok none
  | some t =>
    match genOut with
    | .error _ => .error .generatorFailure
    | .ok resp => (parseRecommendation t.topicId t.topicTitle resp).map some

/-- `PretestStorage.get_pretest`. -/
def getPretest (s : State) (cid : String) : Option Pretest :=
  s.pretests.find? (fun p => p.courseId == cid)

/-- The attempt record built by `submit_pretest` (grading loop plus the
guarded percentage). -/
def mkPretestAttempt (pretest : Pretest) (req : PretestSubmissionRequest)
    (newId now : String) : PretestAttempt :=
  let score := gradePretest pretest.questions req.answers
  let maxScore := pretest.questions.length
  let percentage : ℚ := pct100 score maxScore
  { id := newId, studentId := req.studentId, courseId := req.courseId,
    pretestId := req.pretestId, answers := req.answers,
    score := (score : ℚ), maxScore := (maxScore : ℚ),
    percentage := percentage, completedAt := now }

/-- `PretestService.submit_pretest`.  The attempt is saved
(`storage.save_attempt`, an append) *before* the analysis and the
conditional recommendation; a recommendation failure therefore leaves
the already-persisted attempt behind. -/
def submitPretest (s : State) (req : PretestSubmissionRequest)
    (newId now : String) (genOut : Except Unit String) :
    State × Except Err PretestResultResponse :=
  match getPretest s req.courseId with
  | none => (s, .error .notFound)
  | some pretest =>
    if pretest.id ≠ req.pretestId then (s, .error .scopeMismatch)
    else
      let attempt := mkPretestAttempt pretest req newId now
      let s1 := { s with pretestAttempts := s.pretestAttempts ++ [attempt] }
      let analysis := generateAnalysis pretest attempt req.answers
      if attempt.percentage < 85 then
        match generateRecommendation analysis genOut with
        | .error e => (s1, .error e)
        | .ok rec =>
          (s1, .ok { attempt := attempt, analysis := analysis,
                     recommendation := rec })
      else
        (s1, .ok { attempt := attempt, analysis := analysis,
                   recommendation := none })

/-! ## Helper lemmas -/

theorem hasCompletedMainQuiz_iff (attempts : List WeeklyQuizAttempt)
    (sid cid : String) (w : Int) :
    hasCompletedMainQuiz attempts sid cid w = true ↔
      ∃ a ∈ attempts, a.studentId = sid ∧ a.courseId = cid ∧
        a.weekNumber = w ∧ a.quizType = "main" := by
  simp [hasCompletedMainQuiz, isMainAttemptFor, List.any_eq_true,
    Bool.and_eq_true, beq_iff_eq, and_assoc]

theorem hasCompletedDynamicQuiz_iff (attempts : List WeeklyQuizAttempt)
    (sid cid : String) (w : Int) :
    hasCompletedDynamicQuiz attempts sid cid w = true ↔
      ∃ a ∈ attempts, a.studentId = sid ∧ a.courseId = cid ∧
        a.weekNumber = w ∧ a.quizType = "dynamic" := by
  simp [hasCompletedDynamicQuiz, isDynamicAttemptFor, List.any_eq_true,
    Bool.and_eq_true, beq_iff_eq, and_assoc]

theorem filter_not_filter {α : Type} (p : α → Bool) (l : List α) :
    (l.filter (fun a => !p a)).filter p = [] := by
  induction l with
  | nil => rfl
  | cons a l ih =>
    by_cases h : p a = true <;> simp [List.filter, h, ih]

theorem filter_of_filter_imp {α : Type} (p r : α → Bool) (l : List α)
    (h : ∀ a, p a = true → r a = true) :
    (l.filter r).filter p = l.filter p := by
  induction l with
  | nil => rfl
  | cons a l ih =>
    by_cases hr : r a = true
    · by_cases hp : p a = true <;> simp [List.filter, hr, hp, ih]
    · have hp : ¬ p a = true := fun hpa => hr (h a hpa)
      simp [List.filter, hr, hp, ih]

/-! ## Claim C8 -/

def c8QuizA : WeeklyQuiz :=
  { id := "dynA", courseId := "c1", weekNumber := 1, quizType := "dynamic",
    title := "Week 1 Dynamic Quiz", description := "", questions := [],
    topicIds := [], createdAt := "t0", maxScore := 0 }

def c8QuizB : WeeklyQuiz :=
  { id := "dynB", courseId := "c1", weekNumber := 1, quizType := "dynamic",
    title := "Week 1 Dynamic Quiz", description := "", questions := [],
    topicIds := [], createdAt := "t1", maxScore := 0 }

def c8State : State :=
  { quizzes := [c8QuizA], attempts := [], performance := [], pretests := [],
    pretestAttempts := [] }

/-- Claim C8, counterexample: saving a newly generated dynamic quiz for a
(course, week) that already holds one does not keep both instances — the
prior dynamic quiz is removed and only the new one remains stored. -/
theorem c8_counterexample :
    (saveQuiz c8State c8QuizB).quizzes = [c8QuizB] ∧
      c8QuizA ∈ c8State.quizzes ∧ c8QuizA ∉ (saveQuiz c8State c8QuizB).quizzes := by
  decide

/-- Claim C8 (amended): saving a newly generated quiz of any kind — main,
refresher and dynamic alike — replaces the previously stored quiz of that
(course, week, kind), so at most one current quiz of the triple exists
afterwards (exactly the new one), while quizzes under any other triple
are untouched. -/
theorem saveQuiz_replaces (s : State) (q : WeeklyQuiz) :
    ((saveQuiz s q).quizzes.filter (fun q0 =>
        q0.courseId == q.courseId && q0.weekNumber == q.weekNumber &&
          q0.quizType == q.quizType)) = [q] ∧
    ∀ c w k, ¬(c = q.courseId ∧ w = q.weekNumber ∧ k = q.quizType) →
      ((saveQuiz s q).quizzes.filter (fun q0 =>
          q0.courseId == c && q0.weekNumber == w && q0.quizType == k)) =
        s.quizzes.filter (fun q0 =>
          q0.courseId == c && q0.weekNumber == w && q0.quizType == k) := by
  constructor
  · show ((s.quizzes.filter _ ++ [q]).filter _) = [q]
    rw [List.filter_append, filter_not_filter]
    simp
  · intro c w k hne
    show ((s.quizzes.filter _ ++ [q]).filter _) = _
    rw [List.filter_append,
      filter_of_filter_imp _ _ s.quizzes (fun a ha => ?_)]
    · have hq : (q.courseId == c && q.weekNumber == w && q.quizType == k)
          = false := by
        cases h : (q.courseId == c && q.weekNumber == w && q.quizType == k)
        · rfl
        · simp only [Bool.and_eq_true, beq_iff_eq] at h
          exact absurd ⟨h.1.1.symm, h.1.2.symm, h.2.symm⟩ hne
      simp [List.filter, hq]
    · simp only [Bool.and_eq_true, beq_iff_eq] at ha
      simp only [Bool.not_eq_true']
      cases h : (a.courseId == q.courseId && a.weekNumber == q.weekNumber &&
          a.quizType == q.quizType)
      · rfl
      · simp only [Bool.and_eq_true, beq_iff_eq] at h
        exact absurd
          (show c = q.courseId ∧ w = q.weekNumber ∧ k = q.quizType from
            ⟨ha.1.1 ▸ h.1.1, ha.1.2 ▸ h.1.2, ha.2 ▸ h.2⟩) hne

theorem saveQuiz_replaces_witness :
    ((saveQuiz c8State c8QuizB).quizzes.filter (fun q0 =>
        q0.courseId == c8QuizB.courseId && q0.weekNumber == c8QuizB.weekNumber &&
          q0.quizType == c8QuizB.quizType)) = [c8QuizB] ∧
    ((saveQuiz c8State c8QuizB).quizzes.filter (fun q0 =>
        q0.courseId == "c9" && q0.weekNumber == (2 : Int) &&
          q0.quizType == "main")) =
      c8State.quizzes.filter (fun q0 =>
        q0.courseId == "c9" && q0.weekNumber == (2 : Int) &&
          q0.quizType == "main") :=
  ⟨(saveQuiz_replaces c8State c8QuizB).1,
    (saveQuiz_replaces c8State c8QuizB).2 "c9" 2 "main" (by decide)⟩

/-! ## Claim C1 -/

/-- Claim C1: when a main-quiz attempt for (student, course, week) already
exists, an otherwise-valid second main submission fails with the
duplicate-submission error before grading, and the store is returned
unchanged — no second attempt record, untouched mastery profile. -/
theorem submitQuiz_second_main_rejected (s : State)
    (req : QuizSubmissionRequest) (newId now : String) (quiz : WeeklyQuiz)
    (hq : getQuiz s req.courseId req.weekNumber req.quizType = some quiz)
    (hid : quiz.id = req.quizId)
    (hmain : req.quizType = "main")
    (hdup : ∃ a ∈ s.attempts, a.studentId = req.studentId ∧
      a.courseId = req.courseId ∧ a.weekNumber = req.weekNumber ∧
      a.quizType = "main") :
    submitQuiz s req newId now = (s, .error .duplicateSubmission) := by
  have hcomp : hasCompletedMainQuiz s.attempts req.studentId req.courseId
      req.weekNumber = true :=
    (hasCompletedMainQuiz_iff s.attempts req.studentId req.courseId
      req.weekNumber).mpr hdup
  have hq2 : getQuiz s req.courseId req.weekNumber "main" = some quiz := by
    rw [← hmain]; exact hq
  simp [submitQuiz, hmain, hq2, hid, hcomp]

def c1Quiz : WeeklyQuiz :=
  { id := "qz1", courseId := "c1", weekNumber := 1, quizType := "main",
    title := "Week 1 Main Quiz", description := "", questions := [],
    topicIds := [], createdAt := "t0", maxScore := 0 }

def c1PriorAttempt : WeeklyQuizAttempt :=
  { id := "a0", studentId := "s1", courseId := "c1", weekNumber := 1,
    quizId := "qz1", quizType := "main", answers := [], score := 0,
    maxScore := 0, percentage := 0, completedAt := "t0", analysis := none }

def c1State : State :=
  { quizzes := [c1Quiz], attempts := [c1PriorAttempt], performance := [],
    pretests := [], pretestAttempts := [] }

def c1Req : QuizSubmissionRequest :=
  { studentId := "s1", courseId := "c1", weekNumber := 1, quizType := "main",
    quizId := "qz1", answers := [] }

theorem submitQuiz_second_main_rejected_witness :
    submitQuiz c1State c1Req "a1" "t1" = (c1State, .error .duplicateSubmission) :=
  submitQuiz_second_main_rejected c1State c1Req "a1" "t1" c1Quiz
    (by decide) (by decide) (by decide) (by decide)

/-! ## Claim C7 -/

set_option maxRecDepth 10000

def c7Payload : String :=
  "\x7b\"questions\": [\x7b\"id\": \"q1\", \"question\": \"pick\", \"options\": [\"only\"], \"correctAnswer\": 5\x7d]\x7d"

def c7BadPretestQuestion : PretestQuestion :=
  { id := "q1", question := "pick", options := ["only"], correctAnswer := 5,
    topicId := none, topicTitle := some "" }

def c7BadWeeklyQuestion : WeeklyQuizQuestion :=
  { id := "q1", question := "pick", options := ["only"], correctAnswer := 5,
    topicId := none, topicTitle := some "", conceptId := none,
    difficultyLevel := "medium", isBonus := false }

/-- Claim C7: evidence of the code bug — a payload entry with a single
option and correct-answer index 5 decodes successfully on both the
pretest and the weekly path, yielding a question with fewer than 2
options whose correct-answer index is out of range, instead of failing
at decode time as the documented invariant requires. -/
theorem c7_decode_accepts_invalid_question :
    parsePretestResponse c7Payload [] = .ok [c7BadPretestQuestion] ∧
    parseQuizResponse c7Payload [] = .ok [c7BadWeeklyQuestion] ∧
    c7BadPretestQuestion.options.length < 2 ∧
    ¬ (c7BadPretestQuestion.correctAnswer <
        (c7BadPretestQuestion.options.length : Int)) := by
  decide

/-! ## Claim C6 -/

def c6Payload : String := "Sure! \x7b\"questions\": []\x7d"

/-- Claim C6, counterexample: a generator response whose extracted JSON
object carries an empty `questions` array makes the pretest decode
return an empty question set successfully instead of failing with the
missing-field error. -/
theorem c6_counterexample :
    parsePretestResponse c6Payload [] = .ok [] := by decide

/-- Claim C6 (amended): when the extracted JSON object lacks a
`questions` key or its `questions` array is empty, the weekly-quiz
decode fails with the missing-field error, but the pretest decode
performs no such validation and returns the empty question set. -/
theorem c6_amended (response js : String) (kvs : List (String × Json))
    (topics : List TopicRef) (tm : List (String × String))
    (hx : extractJson response = .ok js)
    (hp : jsonParse js = .ok (.obj kvs))
    (hq : jsonLookup kvs "questions" = none ∨
      jsonLookup kvs "questions" = some (.arr [])) :
    parseQuizResponse response topics = .error .missingField ∧
    parsePretestResponse response tm = .ok [] := by
  have hne : ¬ response = "" := by
    intro h
    rw [h] at hx
    have h0 : extractJson "" = .error "No valid JSON found in Gemini response" := by
      decide
    rw [h0] at hx
    exact Except.noConfusion hx
  constructor
  · simp only [parseQuizResponse, if_neg hne, hx, hp]
    rcases hq with hq | hq <;> simp [hq, Json.isFalsy]
  · simp only [parsePretestResponse, hx, hp]
    rcases hq with hq | hq <;> simp [hq, coercePretestQuestions]

def c6WitnessResponse : String := "\x7b\"questions\": []\x7d"

theorem c6_amended_witness :
    parseQuizResponse c6WitnessResponse [] = .error .missingField ∧
    parsePretestResponse c6WitnessResponse [] = .ok [] :=
  c6_amended c6WitnessResponse c6WitnessResponse [("questions", .arr [])] [] []
    (by decide) (by rfl) (Or.inr (by rfl))

/-! ## Claim C5 -/

def c5Slice (c : Char) : String :=
  String.mk
    ("\x7b\"questions\": [\x7b\"id\": \"q1\", \"question\": \"a".data ++
      c :: "b\", \"options\": [\"x\", \"y\"], \"correctAnswer\": 0\x7d]\x7d".data)

def c5Blob (c : Char) : String := "quiz: " ++ c5Slice c

def c5GoodQuestion : WeeklyQuizQuestion :=
  { id := "q1", question := "a b", options := ["x", "y"], correctAnswer := 0,
    topicId := none, topicTitle := some "", conceptId := none,
    difficultyLevel := "medium", isBonus := false }

/-- Claim C5, counterexample: a blob whose brace slice is valid JSON
except for the raw control character U+0001 inside a string value — the
same blob with the character replaced by a space decodes fine — is
rejected with the invalid-JSON error by the weekly decode, instead of
succeeding by replacement as the claim states (no sanitisation pass
exists in `QuizService._extract_json`). -/
theorem c5_counterexample :
    parseQuizResponse (c5Blob (Char.ofNat 1)) [] = .error .invalidJSON ∧
    parseQuizResponse (c5Blob ' ') [] = .ok [c5GoodQuestion] := by
  decide

/-- A character the strict parser can consume: printable (code ≥ 32) or
one of the whitespace controls tab, newline, carriage-return. -/
def isCleanChar (c : Char) : Bool :=
  decide (32 ≤ c.toNat) || c.toNat == 9 || c.toNat == 10 || c.toNat == 13

/-- Number of characters of a list that the strict parser can never
consume (raw control characters other than tab/newline/CR). -/
def dirtyCount (l : List Char) : Nat :=
  (l.filter (fun c => !isCleanChar c)).length

theorem dirtyCount_nil : dirtyCount [] = 0 := rfl

theorem dirtyCount_cons_clean (c : Char) (l : List Char)
    (h : isCleanChar c = true) : dirtyCount (c :: l) = dirtyCount l := by
  simp [dirtyCount, List.filter_cons, h]

theorem dirtyCount_append (p q : List Char) :
    dirtyCount (p ++ q) = dirtyCount p + dirtyCount q := by
  simp [dirtyCount, List.filter_append]

theorem isCleanChar_of_ge (c : Char) (h : 32 ≤ c.toNat) :
    isCleanChar c = true := by
  simp [isCleanChar]
  omega

theorem isCleanChar_of_digit (c : Char) (h : c.isDigit = true) :
    isCleanChar c = true := by
  simp [Char.isDigit] at h
  have h1 : 48 ≤ c.toNat := h.1
  exact isCleanChar_of_ge c (by omega)

theorem isCleanChar_of_hex (c : Char) (a : Nat) (h : hexVal? c = some a) :
    isCleanChar c = true := by
  rw [hexVal?] at h
  split_ifs at h with h1 h2 h3
  · have hv := h1.1
    simp [Char.le_def] at hv
    have hb : 48 ≤ c.toNat := hv
    exact isCleanChar_of_ge c (by omega)
  · have hv := h2.1
    simp [Char.le_def] at hv
    have hb : 97 ≤ c.toNat := hv
    exact isCleanChar_of_ge c (by omega)
  · have hv := h3.1
    simp [Char.le_def] at hv
    have hb : 65 ≤ c.toNat := hv
    exact isCleanChar_of_ge c (by omega)

theorem skipWs_dirtyCount (cs : List Char) :
    dirtyCount (skipWs cs) = dirtyCount cs := by
  induction cs with
  | nil => rfl
  | cons c rest ih =>
    rw [skipWs]
    by_cases hws : c = ' ' ∨ c = '\t' ∨ c = '\n' ∨ c = '\r'
    · rw [if_pos hws, ih]
      have hc : isCleanChar c = true := by
        rcases hws with h | h | h | h <;> subst h <;> decide
      rw [dirtyCount_cons_clean c rest hc]
    · rw [if_neg hws]

theorem skipWs_nil_dirtyCount (cs : List Char) (h : skipWs cs = []) :
    dirtyCount cs = 0 := by
  have := skipWs_dirtyCount cs
  rw [h, dirtyCount_nil] at this
  omega

theorem lexDigits_dirtyCount (cs : List Char) :
    dirtyCount (lexDigits cs).2 = dirtyCount cs := by
  induction cs with
  | nil => rfl
  | cons c rest ih =>
    rw [lexDigits]
    by_cases hd : c.isDigit
    · rcases hld : lexDigits rest with ⟨ds, r⟩
      rw [hld] at ih
      simp only [hd, if_true, hld]
      rw [dirtyCount_cons_clean c rest (isCleanChar_of_digit c hd)]
      exact ih
    · simp [hd]

theorem lexString_dirtyCount : ∀ (fuel : Nat) (acc cs : List Char)
    (sout : String) (rout : List Char),
    lexString fuel acc cs = .ok (sout, rout) →
    dirtyCount rout = dirtyCount cs := by
  intro fuel
  induction fuel with
  | zero =>
    intro acc cs sout rout h
    exact Except.noConfusion h
  | succ fuel ih =>
    intro acc cs sout rout h
    rcases cs with _ | ⟨c, rest⟩
    · exact Except.noConfusion h
    rw [lexString.eq_def] at h
    dsimp only at h
    by_cases h1 : c = '"'
    · rw [if_pos h1] at h
      injection h with hp
      have hr : rest = rout := congrArg Prod.snd hp
      subst hr
      subst h1
      rw [dirtyCount_cons_clean _ _ (by decide)]
    rw [if_neg h1] at h
    by_cases h2 : c = '\\'
    · rw [if_pos h2] at h
      rcases rest with _ | ⟨e, rest2⟩
      · exact Except.noConfusion h
      subst h2
      dsimp only at h
      by_cases he1 : e = '"'
      · rw [if_pos he1] at h
        subst he1
        rw [dirtyCount_cons_clean _ _ (by decide),
          dirtyCount_cons_clean _ _ (by decide)]
        exact ih _ _ _ _ h
      rw [if_neg he1] at h
      by_cases he2 : e = '\\'
      · rw [if_pos he2] at h
        subst he2
        rw [dirtyCount_cons_clean _ _ (by decide),
          dirtyCount_cons_clean _ _ (by decide)]
        exact ih _ _ _ _ h
      rw [if_neg he2] at h
      by_cases he3 : e = '/'
      · rw [if_pos he3] at h
        subst he3
        rw [dirtyCount_cons_clean _ _ (by decide),
          dirtyCount_cons_clean _ _ (by decide)]
        exact ih _ _ _ _ h
      rw [if_neg he3] at h
      by_cases he4 : e = 'b'
      · rw [if_pos he4] at h
        subst he4
        rw [dirtyCount_cons_clean _ _ (by decide),
          dirtyCount_cons_clean _ _ (by decide)]
        exact ih _ _ _ _ h
      rw [if_neg he4] at h
      by_cases he5 : e = 'f'
      · rw [if_pos he5] at h
        subst he5
        rw [dirtyCount_cons_clean _ _ (by decide),
          dirtyCount_cons_clean _ _ (by decide)]
        exact ih _ _ _ _ h
      rw [if_neg he5] at h
      by_cases he6 : e = 'n'
      · rw [if_pos he6] at h
        subst he6
        rw [dirtyCount_cons_clean _ _ (by decide),
          dirtyCount_cons_clean _ _ (by decide)]
        exact ih _ _ _ _ h
      rw [if_neg he6] at h
      by_cases he7 : e = 'r'
      · rw [if_pos he7] at h
        subst he7
        rw [dirtyCount_cons_clean _ _ (by decide),
          dirtyCount_cons_clean _ _ (by decide)]
        exact ih _ _ _ _ h
      rw [if_neg he7] at h
      by_cases he8 : e = 't'
      · rw [if_pos he8] at h
        subst he8
        rw [dirtyCount_cons_clean _ _ (by decide),
          dirtyCount_cons_clean _ _ (by decide)]
        exact ih _ _ _ _ h
      rw [if_neg he8] at h
      by_cases he9 : e = 'u'
      · rw [if_pos he9] at h
        subst he9
        rcases rest2 with _ | ⟨a1, r2⟩
        · exact Except.noConfusion h
        rcases r2 with _ | ⟨a2, r3⟩
        · exact Except.noConfusion h
        rcases r3 with _ | ⟨a3, r4⟩
        · exact Except.noConfusion h
        rcases r4 with _ | ⟨a4, rest3⟩
        · exact Except.noConfusion h
        dsimp only at h
        rcases hv1 : hexVal? a1 with _ | v1
        · rw [hv1] at h
          exact Except.noConfusion h
        rcases hv2 : hexVal? a2 with _ | v2
        · rw [hv1, hv2] at h
          exact Except.noConfusion h
        rcases hv3 : hexVal? a3 with _ | v3
        · rw [hv1, hv2, hv3] at h
          exact Except.noConfusion h
        rcases hv4 : hexVal? a4 with _ | v4
        · rw [hv1, hv2, hv3, hv4] at h
          exact Except.noConfusion h
        rw [hv1, hv2, hv3, hv4] at h
        rw [dirtyCount_cons_clean _ _ (by decide),
          dirtyCount_cons_clean _ _ (by decide),
          dirtyCount_cons_clean _ _ (isCleanChar_of_hex a1 v1 hv1),
          dirtyCount_cons_clean _ _ (isCleanChar_of_hex a2 v2 hv2),
          dirtyCount_cons_clean _ _ (isCleanChar_of_hex a3 v3 hv3),
          dirtyCount_cons_clean _ _ (isCleanChar_of_hex a4 v4 hv4)]
        exact ih _ _ _ _ h
      rw [if_neg he9] at h
      exact Except.noConfusion h
    rw [if_neg h2] at h
    by_cases h3 : c.toNat < 32
    · rw [if_pos h3] at h
      exact Except.noConfusion h
    rw [if_neg h3] at h
    rw [dirtyCount_cons_clean _ _ (isCleanChar_of_ge c (by omega))]
    exact ih _ _ _ _ h

theorem lexNumber_dirtyCount (cs : List Char) (n : Int) (rout : List Char)
    (h : lexNumber cs = .ok (n, rout)) : dirtyCount rout = dirtyCount cs := by
  rw [lexNumber.eq_def] at h
  dsimp only at h
  split at h
  · rename_i rest
    by_cases hemp : (lexDigits rest).1.isEmpty
    · rw [if_pos hemp] at h
      exact Except.noConfusion h
    rw [if_neg hemp] at h
    split at h
    · exact Except.noConfusion h
    · exact Except.noConfusion h
    · exact Except.noConfusion h
    dsimp only [Except.map] at h
    injection h with hp
    have hr : (lexDigits rest).2 = rout := congrArg Prod.snd hp
    rw [← hr, lexDigits_dirtyCount rest,
      dirtyCount_cons_clean _ _ (by decide)]
  · by_cases hemp : (lexDigits cs).1.isEmpty
    · rw [if_pos hemp] at h
      exact Except.noConfusion h
    rw [if_neg hemp] at h
    split at h
    · exact Except.noConfusion h
    · exact Except.noConfusion h
    · exact Except.noConfusion h
    dsimp only [Except.map] at h
    injection h with hp
    have hr : (lexDigits cs).2 = rout := congrArg Prod.snd hp
    rw [← hr, lexDigits_dirtyCount cs]

theorem skipWs_cons_dirtyCount (cs r : List Char) (x : Char)
    (heq : skipWs cs = x :: r) (hx : isCleanChar x = true) :
    dirtyCount r = dirtyCount cs := by
  have hws := skipWs_dirtyCount cs
  rw [heq, dirtyCount_cons_clean _ _ hx] at hws
  exact hws

/-- Success of any of the mutual parser entry points leaves the number of
unconsumable control characters unchanged: every consumed character is
clean, so a raw control character in the input survives into the rest. -/
theorem parse_dirtyCount : ∀ fuel : Nat,
    (∀ cs v rout, parseValue fuel cs = .ok (v, rout) →
      dirtyCount rout = dirtyCount cs) ∧
    (∀ cs v rout, parseObjBody fuel cs = .ok (v, rout) →
      dirtyCount rout = dirtyCount cs) ∧
    (∀ cs acc v rout, parseMembers fuel cs acc = .ok (v, rout) →
      dirtyCount rout = dirtyCount cs) ∧
    (∀ cs v rout, parseArrBody fuel cs = .ok (v, rout) →
      dirtyCount rout = dirtyCount cs) ∧
    (∀ cs acc v rout, parseElems fuel cs acc = .ok (v, rout) →
      dirtyCount rout = dirtyCount cs) := by
  intro fuel
  induction fuel with
  | zero =>
    refine ⟨?_, ?_, ?_, ?_, ?_⟩
    · intro cs v rout h
      rw [parseValue.eq_def] at h
      exact Except.noConfusion h
    · intro cs v rout h
      rw [parseObjBody.eq_def] at h
      exact Except.noConfusion h
    · intro cs acc v rout h
      rw [parseMembers.eq_def] at h
      exact Except.noConfusion h
    · intro cs v rout h
      rw [parseArrBody.eq_def] at h
      exact Except.noConfusion h
    · intro cs acc v rout h
      rw [parseElems.eq_def] at h
      exact Except.noConfusion h
  | succ fuel ih =>
    obtain ⟨ihV, ihO, ihM, ihA, ihE⟩ := ih
    refine ⟨?_, ?_, ?_, ?_, ?_⟩
    · -- parseValue
      intro cs v rout h
      rw [parseValue.eq_def] at h
      dsimp only at h
      split at h
      · exact Except.noConfusion h
      · rename_i rest heq
        have h1 := ihO rest v rout h
        have h2 := skipWs_cons_dirtyCount cs rest _ heq (by decide)
        omega
      · rename_i rest heq
        have h1 := ihA rest v rout h
        have h2 := skipWs_cons_dirtyCount cs rest _ heq (by decide)
        omega
      · rename_i rest heq
        cases hls : lexString (rest.length + 1) [] rest with
        | error e =>
          rw [hls] at h
          exact Except.noConfusion h
        | ok p =>
          rw [hls] at h
          dsimp only [Except.map] at h
          injection h with hp
          have hr : p.2 = rout := congrArg Prod.snd hp
          have h1 := lexString_dirtyCount _ _ _ p.1 p.2 hls
          rw [hr] at h1
          have h2 := skipWs_cons_dirtyCount cs rest _ heq (by decide)
          omega
      · rename_i rest heq
        by_cases htk : rest.take 3 = ['r', 'u', 'e']
        · rw [if_pos htk] at h
          injection h with hp
          have hr : rest.drop 3 = rout := congrArg Prod.snd hp
          have h1 : dirtyCount rest =
              dirtyCount (rest.take 3) + dirtyCount (rest.drop 3) := by
            conv_lhs => rw [← List.take_append_drop 3 rest]
            exact dirtyCount_append _ _
          rw [htk, show dirtyCount ['r', 'u', 'e'] = 0 from by decide, hr] at h1
          have h2 := skipWs_cons_dirtyCount cs rest _ heq (by decide)
          omega
        · rw [if_neg htk] at h
          exact Except.noConfusion h
      · rename_i rest heq
        by_cases htk : rest.take 4 = ['a', 'l', 's', 'e']
        · rw [if_pos htk] at h
          injection h with hp
          have hr : rest.drop 4 = rout := congrArg Prod.snd hp
          have h1 : dirtyCount rest =
              dirtyCount (rest.take 4) + dirtyCount (rest.drop 4) := by
            conv_lhs => rw [← List.take_append_drop 4 rest]
            exact dirtyCount_append _ _
          rw [htk, show dirtyCount ['a', 'l', 's', 'e'] = 0 from by decide, hr] at h1
          have h2 := skipWs_cons_dirtyCount cs rest _ heq (by decide)
          omega
        · rw [if_neg htk] at h
          exact Except.noConfusion h
      · rename_i rest heq
        by_cases htk : rest.take 3 = ['u', 'l', 'l']
        · rw [if_pos htk] at h
          injection h with hp
          have hr : rest.drop 3 = rout := congrArg Prod.snd hp
          have h1 : dirtyCount rest =
              dirtyCount (rest.take 3) + dirtyCount (rest.drop 3) := by
            conv_lhs => rw [← List.take_append_drop 3 rest]
            exact dirtyCount_append _ _
          rw [htk, show dirtyCount ['u', 'l', 'l'] = 0 from by decide, hr] at h1
          have h2 := skipWs_cons_dirtyCount cs rest _ heq (by decide)
          omega
        · rw [if_neg htk] at h
          exact Except.noConfusion h
      · rename_i c rest hd1 hd2 hd3 hd4 hd5 hd6 heq
        by_cases hcond : c = '-' ∨ c.isDigit
        · rw [if_pos hcond] at h
          cases hln : lexNumber (c :: rest) with
          | error e =>
            rw [hln] at h
            exact Except.noConfusion h
          | ok p =>
            rw [hln] at h
            dsimp only [Except.map] at h
            injection h with hp
            have hr : p.2 = rout := congrArg Prod.snd hp
            have h1 := lexNumber_dirtyCount (c :: rest) p.1 p.2 hln
            rw [hr] at h1
            have h2 := skipWs_dirtyCount cs
            rw [heq] at h2
            omega
        · rw [if_neg hcond] at h
          exact Except.noConfusion h
    · -- parseObjBody
      intro cs v rout h
      rw [parseObjBody.eq_def] at h
      dsimp only at h
      split at h
      · rename_i rest heq
        injection h with hp
        have hr : rest = rout := congrArg Prod.snd hp
        have h2 := skipWs_cons_dirtyCount cs rest _ heq (by decide)
        rw [hr] at h2
        exact h2
      · have h1 := ihM (skipWs cs) [] v rout h
        have h2 := skipWs_dirtyCount cs
        omega
    · -- parseMembers
      intro cs acc v rout h
      rw [parseMembers.eq_def] at h
      dsimp only at h
      split at h
      · rename_i rest heq
        cases hls : lexString (rest.length + 1) [] rest with
        | error e =>
          rw [hls] at h
          exact Except.noConfusion h
        | ok p =>
          rcases p with ⟨key, r1⟩
          rw [hls] at h
          dsimp only at h
          split at h
          · rename_i r2 heq2
            cases hpv : parseValue fuel r2 with
            | error e =>
              rw [hpv] at h
              exact Except.noConfusion h
            | ok q =>
              rcases q with ⟨v1, r3⟩
              rw [hpv] at h
              dsimp only at h
              split at h
              · rename_i r4 heq3
                have h1 := ihM r4 (acc ++ [(key, v1)]) v rout h
                have h2 := skipWs_cons_dirtyCount r3 r4 _ heq3 (by decide)
                have h3 := ihV r2 v1 r3 hpv
                have h4 := skipWs_cons_dirtyCount r1 r2 _ heq2 (by decide)
                have h5 := lexString_dirtyCount _ _ _ key r1 hls
                have h6 := skipWs_cons_dirtyCount cs rest _ heq (by decide)
                omega
              · rename_i r4 heq3
                injection h with hp
                have hr : r4 = rout := congrArg Prod.snd hp
                have h2 := skipWs_cons_dirtyCount r3 r4 _ heq3 (by decide)
                rw [hr] at h2
                have h3 := ihV r2 v1 r3 hpv
                have h4 := skipWs_cons_dirtyCount r1 r2 _ heq2 (by decide)
                have h5 := lexString_dirtyCount _ _ _ key r1 hls
                have h6 := skipWs_cons_dirtyCount cs rest _ heq (by decide)
                omega
              · exact Except.noConfusion h
          · exact Except.noConfusion h
      · exact Except.noConfusion h
    · -- parseArrBody
      intro cs v rout h
      rw [parseArrBody.eq_def] at h
      dsimp only at h
      split at h
      · rename_i rest heq
        injection h with hp
        have hr : rest = rout := congrArg Prod.snd hp
        have h2 := skipWs_cons_dirtyCount cs rest _ heq (by decide)
        rw [hr] at h2
        exact h2
      · have h1 := ihE (skipWs cs) [] v rout h
        have h2 := skipWs_dirtyCount cs
        omega
    · -- parseElems
      intro cs acc v rout h
      rw [parseElems.eq_def] at h
      dsimp only at h
      cases hpv : parseValue fuel cs with
      | error e =>
        rw [hpv] at h
        exact Except.noConfusion h
      | ok q =>
        rcases q with ⟨v1, r1⟩
        rw [hpv] at h
        dsimp only at h
        split at h
        · rename_i r2 heq2
          have h1 := ihE r2 (acc ++ [v1]) v rout h
          have h2 := skipWs_cons_dirtyCount r1 r2 _ heq2 (by decide)
          have h3 := ihV cs v1 r1 hpv
          omega
        · rename_i r2 heq2
          injection h with hp
          have hr : r2 = rout := congrArg Prod.snd hp
          have h2 := skipWs_cons_dirtyCount r1 r2 _ heq2 (by decide)
          rw [hr] at h2
          have h3 := ihV cs v1 r1 hpv
          omega
        · exact Except.noConfusion h

/-- A string that strict `json.loads` accepts contains no raw control
character other than tab, newline and carriage-return. -/
theorem jsonParse_clean (s : String) (v : Json) (h : jsonParse s = .ok v) :
    ∀ c ∈ s.data, isCleanChar c = true := by
  rw [jsonParse] at h
  cases hpv : parseValue (3 * s.data.length + 3) s.data with
  | error e =>
    rw [hpv] at h
    exact Except.noConfusion h
  | ok p =>
    rcases p with ⟨v0, rest⟩
    rw [hpv] at h
    dsimp only at h
    by_cases he : (skipWs rest).isEmpty
    · have hnil : skipWs rest = [] := by
        rcases hsw : skipWs rest with _ | ⟨c, r⟩
        · rfl
        · rw [hsw] at he
          exact absurd he (by simp)
      have hrest : dirtyCount rest = 0 := skipWs_nil_dirtyCount rest hnil
      have hall : dirtyCount s.data = 0 := by
        have h1 := (parse_dirtyCount (3 * s.data.length + 3)).1 s.data v0 rest hpv
        omega
      intro c hc
      by_contra hcl
      have hmem : c ∈ s.data.filter (fun c => !isCleanChar c) := by
        refine List.mem_filter.mpr ⟨hc, ?_⟩
        simp only [Bool.not_eq_true] at hcl
        simp [hcl]
      have hpos : 0 < dirtyCount s.data := by
        have := List.length_pos.mpr (List.ne_nil_of_mem hmem)
        simpa [dirtyCount] using this
      omega
    · rw [if_neg he] at h
      exact Except.noConfusion h

/-- Claim C5 (amended): the weekly-quiz decoder performs no
control-character replacement: whenever the brace slice extracted from a
generator blob contains a raw control character outside tab, newline and
carriage-return — in particular whenever the slice is valid JSON except
for such a character embedded in a string value — strict parsing of the
unaltered slice fails and the decode reports the invalid-JSON error
instead of succeeding by replacement. -/
theorem c5_amended (response js : String) (topics : List TopicRef) (c : Char)
    (hx : extractJson response = .ok js)
    (hmem : c ∈ js.data)
    (hctl : c.toNat < 32)
    (hallowed : ¬(c.toNat = 9 ∨ c.toNat = 10 ∨ c.toNat = 13)) :
    parseQuizResponse response topics = .error .invalidJSON := by
  have hne : ¬ response = "" := by
    intro h
    rw [h] at hx
    have h0 : extractJson "" = .error "No valid JSON found in Gemini response" := by
      decide
    rw [h0] at hx
    exact Except.noConfusion hx
  cases hp : jsonParse js with
  | ok v =>
    exfalso
    have hclean := jsonParse_clean js v hp c hmem
    rw [isCleanChar] at hclean
    simp only [Bool.or_eq_true, decide_eq_true_eq, beq_iff_eq] at hclean
    push_neg at hallowed
    rcases hclean with ((h | h) | h) | h <;> omega
  | error e =>
    simp only [parseQuizResponse, if_neg hne, hx, hp]

theorem c5_amended_witness :
    parseQuizResponse (c5Blob (Char.ofNat 1)) [] = .error .invalidJSON :=
  c5_amended (c5Blob (Char.ofNat 1)) (c5Slice (Char.ofNat 1)) [] (Char.ofNat 1)
    (by decide) (by decide) (by decide) (by decide)

/-! ## Claim C4 -/

def c4Pretest : Pretest :=
  { id := "p1", courseId := "c1",
    questions := [{ id := "q1", question := "2+2?", options := ["3", "4"],
                    correctAnswer := 1, topicId := some "t1",
                    topicTitle := some "Arithmetic" }],
    createdAt := "t0", maxScore := 1 }

def c4State : State :=
  { quizzes := [], attempts := [], performance := [],
    pretests := [c4Pretest], pretestAttempts := [] }

def c4Req : PretestSubmissionRequest :=
  { studentId := "s1", courseId := "c1", pretestId := "p1",
    answers := [("q1", 0)] }

/-- Claim C4, counterexample: a pretest submission scoring below 85 whose
recommendation decode fails (generator output holds no JSON object) makes
the enclosing submit fail — but the freshly graded attempt record has
already been persisted, so the failed submission does leave a new
Attempt behind. -/
theorem c4_counterexample :
    (submitPretest c4State c4Req "pa1" "t1" (.ok "unusable output")).2 =
      .error .malformedResponse ∧
    (submitPretest c4State c4Req "pa1" "t1" (.ok "unusable output")).1.pretestAttempts.length =
      c4State.pretestAttempts.length + 1 := by
  decide

/-- Claim C4 (amended): when the analysis calls for a recommendation
(percentage below 85) and its generation or decoding fails, the
enclosing pretest submit fails with that error, the mastery profile and
every other collection are untouched — but the newly graded Attempt
record has already been appended to the pretest-attempt store before the
recommendation step, so it is left behind. -/
theorem submitPretest_rec_failure_keeps_attempt (s : State)
    (req : PretestSubmissionRequest) (newId now : String)
    (genOut : Except Unit String) (pretest : Pretest) (e : Err)
    (hp : getPretest s req.courseId = some pretest)
    (hid : pretest.id = req.pretestId)
    (hpct : (mkPretestAttempt pretest req newId now).percentage < 85)
    (hrec : generateRecommendation
      (generateAnalysis pretest (mkPretestAttempt pretest req newId now)
        req.answers) genOut = .error e) :
    submitPretest s req newId now genOut =
      ({ s with pretestAttempts :=
          s.pretestAttempts ++ [mkPretestAttempt pretest req newId now] },
        .error e) := by
  simp [submitPretest, hp, hid, hpct, hrec]

theorem submitPretest_rec_failure_keeps_attempt_witness :
    submitPretest c4State c4Req "pa2" "t2" (.ok "still unusable") =
      ({ c4State with pretestAttempts :=
          c4State.pretestAttempts ++ [mkPretestAttempt c4Pretest c4Req "pa2" "t2"] },
        .error .malformedResponse) :=
  submitPretest_rec_failure_keeps_attempt c4State c4Req "pa2" "t2"
    (.ok "still unusable") c4Pretest .malformedResponse
    (by decide) (by decide) (by decide) (by decide)

/-! ## Claim C2 -/

theorem filter_length_le_one_unique {α : Type} (p : α → Bool) (l : List α)
    (h : (l.filter p).length ≤ 1) {a b : α} (ha : a ∈ l) (hb : b ∈ l)
    (hpa : p a = true) (hpb : p b = true) : a = b := by
  have ha' : a ∈ l.filter p := List.mem_filter.mpr ⟨ha, hpa⟩
  have hb' : b ∈ l.filter p := List.mem_filter.mpr ⟨hb, hpb⟩
  cases hfl : l.filter p with
  | nil =>
    rw [hfl] at ha'
    exact absurd ha' (List.not_mem_nil a)
  | cons c rest =>
    cases rest with
    | nil =>
      rw [hfl] at ha' hb'
      simp only [List.mem_singleton] at ha' hb'
      rw [ha', hb']
    | cons d rest2 =>
      rw [hfl] at h
      simp at h

theorem mainAttempt_pred_iff (sid cid : String) (w : Int)
    (a : WeeklyQuizAttempt) :
    isMainAttemptFor sid cid w a = true ↔
      a.studentId = sid ∧ a.courseId = cid ∧ a.weekNumber = w ∧
        a.quizType = "main" := by
  simp [isMainAttemptFor, Bool.and_eq_true, beq_iff_eq, and_assoc]

/-- Claim C2: the week-lock query is true exactly when the week exceeds 1,
a main attempt for the previous week exists with percentage below 60, and
no dynamic attempt for the previous week exists; week 1 is never locked.
The query is a pure function of the store (its Python body performs only
reads).  The uniqueness hypothesis reflects the one-attempt rule the
services enforce on main attempts. -/
theorem checkWeekLockStatus_iff (s : State) (sid cid : String) (n : Int)
    (huniq : (s.attempts.filter (isMainAttemptFor sid cid (n - 1))).length ≤ 1) :
    checkWeekLockStatus s sid cid n = true ↔
      (1 < n ∧
        (∃ a ∈ s.attempts, a.studentId = sid ∧ a.courseId = cid ∧
          a.weekNumber = n - 1 ∧ a.quizType = "main" ∧ a.percentage < 60) ∧
        ¬ ∃ a ∈ s.attempts, a.studentId = sid ∧ a.courseId = cid ∧
          a.weekNumber = n - 1 ∧ a.quizType = "dynamic") := by
  rw [checkWeekLockStatus]
  by_cases hn : n ≤ 1
  · rw [if_pos hn]
    simp only [Bool.false_eq_true, false_iff]
    rintro ⟨h1, -, -⟩
    omega
  · rw [if_neg hn]
    have h1 : 1 < n := by omega
    by_cases hm : hasCompletedMainQuiz s.attempts sid cid (n - 1) = true
    · rw [hm]
      simp only [Bool.not_true, Bool.false_eq_true, if_false]
      obtain ⟨x, hxmem, hxp⟩ := List.any_eq_true.mp hm
      obtain ⟨a, hfind⟩ :=
        Option.isSome_iff_exists.mp (List.find?_isSome.mpr ⟨x, hxmem, hxp⟩)
      rw [getMainQuizScore, hfind, Option.map_some']
      dsimp only
      have hamem := List.mem_of_find?_eq_some hfind
      have hap := List.find?_some hfind
      have haprops := (mainAttempt_pred_iff sid cid (n - 1) a).mp hap
      by_cases hge : a.percentage ≥ 60
      · rw [if_pos hge]
        simp only [Bool.false_eq_true, false_iff]
        rintro ⟨-, ⟨b, hbmem, hb1, hb2, hb3, hb4, hblt⟩, -⟩
        have hbp : isMainAttemptFor sid cid (n - 1) b = true :=
          (mainAttempt_pred_iff sid cid (n - 1) b).mpr ⟨hb1, hb2, hb3, hb4⟩
        have hba : b = a :=
          filter_length_le_one_unique _ _ huniq hbmem hamem hbp hap
        rw [hba] at hblt
        exact absurd hge (not_le.mpr hblt)
      · rw [if_neg hge]
        constructor
        · intro hnd
          refine ⟨h1, ⟨a, hamem, haprops.1, haprops.2.1, haprops.2.2.1,
            haprops.2.2.2, not_le.mp hge⟩, ?_⟩
          rintro ⟨b, hbmem, hb1, hb2, hb3, hb4⟩
          have : hasCompletedDynamicQuiz s.attempts sid cid (n - 1) = true :=
            (hasCompletedDynamicQuiz_iff s.attempts sid cid (n - 1)).mpr
              ⟨b, hbmem, hb1, hb2, hb3, hb4⟩
          rw [this] at hnd
          exact Bool.noConfusion hnd
        · rintro ⟨-, -, hnd⟩
          have : hasCompletedDynamicQuiz s.attempts sid cid (n - 1) = false := by
            cases hd : hasCompletedDynamicQuiz s.attempts sid cid (n - 1)
            · rfl
            · exact absurd
                ((hasCompletedDynamicQuiz_iff s.attempts sid cid (n - 1)).mp hd)
                hnd
          rw [this]
          rfl
    · have hm' : hasCompletedMainQuiz s.attempts sid cid (n - 1) = false :=
        Bool.not_eq_true _ ▸ hm
      rw [hm']
      simp only [Bool.not_false, if_true, Bool.false_eq_true, false_iff]
      rintro ⟨-, ⟨b, hbmem, hb1, hb2, hb3, hb4, -⟩, -⟩
      exact hm ((hasCompletedMainQuiz_iff s.attempts sid cid (n - 1)).mpr
        ⟨b, hbmem, hb1, hb2, hb3, hb4⟩)

def c2MainAttempt : WeeklyQuizAttempt :=
  { id := "a2", studentId := "s1", courseId := "c1", weekNumber := 2,
    quizId := "qz2", quizType := "main", answers := [], score := 11,
    maxScore := 20, percentage := 55, completedAt := "t0", analysis := none }

def c2State : State :=
  { quizzes := [], attempts := [c2MainAttempt], performance := [],
    pretests := [], pretestAttempts := [] }

theorem checkWeekLockStatus_iff_witness :
    checkWeekLockStatus c2State "s1" "c1" 3 = true ↔
      (1 < (3 : Int) ∧
        (∃ a ∈ c2State.attempts, a.studentId = "s1" ∧ a.courseId = "c1" ∧
          a.weekNumber = (3 : Int) - 1 ∧ a.quizType = "main" ∧
          a.percentage < 60) ∧
        ¬ ∃ a ∈ c2State.attempts, a.studentId = "s1" ∧ a.courseId = "c1" ∧
          a.weekNumber = (3 : Int) - 1 ∧ a.quizType = "dynamic") :=
  checkWeekLockStatus_iff c2State "s1" "c1" 3 (by decide)

/-! ## Claim C10 -/

def statsCorrectSum (stats : List (String × TopicStat)) : Nat :=
  (stats.map (fun kv => kv.2.correctCount)).sum

def statsIncorrectSum (stats : List (String × TopicStat)) : Nat :=
  (stats.map (fun kv => kv.2.incorrectCount)).sum

theorem bumpStat_correctSum (stats : List (String × TopicStat))
    (tid title : String) (b : Bool) :
    statsCorrectSum (bumpStat stats tid title b) =
      statsCorrectSum stats + (if b then 1 else 0) := by
  induction stats with
  | nil => cases b <;> simp [bumpStat, statsCorrectSum]
  | cons kv rest ih =>
    obtain ⟨k, st⟩ := kv
    by_cases hk : k = tid
    · simp only [bumpStat, if_pos hk, statsCorrectSum, List.map_cons,
        List.sum_cons]
      cases b <;> simp <;> omega
    · simp only [bumpStat, if_neg hk, statsCorrectSum, List.map_cons,
        List.sum_cons] at *
      omega

theorem bumpStat_incorrectSum (stats : List (String × TopicStat))
    (tid title : String) (b : Bool) :
    statsIncorrectSum (bumpStat stats tid title b) =
      statsIncorrectSum stats + (if b then 0 else 1) := by
  induction stats with
  | nil => cases b <;> simp [bumpStat, statsIncorrectSum]
  | cons kv rest ih =>
    obtain ⟨k, st⟩ := kv
    by_cases hk : k = tid
    · simp only [bumpStat, if_pos hk, statsIncorrectSum, List.map_cons,
        List.sum_cons]
      cases b <;> simp <;> omega
    · simp only [bumpStat, if_neg hk, statsIncorrectSum, List.map_cons,
        List.sum_cons] at *
      omega

theorem quizTopicStatsGo_correctSum (qs : List WeeklyQuizQuestion)
    (answers : List (String × Int)) (stats : List (String × TopicStat)) :
    statsCorrectSum (quizTopicStatsGo stats qs answers) =
      statsCorrectSum stats + gradeScore qs answers := by
  induction qs generalizing stats with
  | nil => simp [quizTopicStatsGo, gradeScore]
  | cons q rest ih =>
    rw [quizTopicStatsGo, ih, bumpStat_correctSum, gradeScore]
    omega

theorem quizTopicStatsGo_totalSum (qs : List WeeklyQuizQuestion)
    (answers : List (String × Int)) (stats : List (String × TopicStat)) :
    statsCorrectSum (quizTopicStatsGo stats qs answers) +
      statsIncorrectSum (quizTopicStatsGo stats qs answers) =
      statsCorrectSum stats + statsIncorrectSum stats + qs.length := by
  induction qs generalizing stats with
  | nil => simp [quizTopicStatsGo]
  | cons q rest ih =>
    rw [quizTopicStatsGo, ih, bumpStat_correctSum, bumpStat_incorrectSum,
      List.length_cons]
    cases isHit answers q.id q.correctAnswer <;> simp <;> omega

theorem generateShortAnalysis_totals (quiz : WeeklyQuiz)
    (answers : List (String × Int)) :
    (generateShortAnalysis quiz answers).overallScore =
      (gradeScore quiz.questions answers : ℚ) ∧
    (generateShortAnalysis quiz answers).maxScore =
      (quiz.questions.length : ℚ) ∧
    (generateShortAnalysis quiz answers).percentage =
      pct100 (gradeScore quiz.questions answers) quiz.questions.length := by
  have hc : statsCorrectSum (quizTopicStats quiz.questions answers) =
      gradeScore quiz.questions answers := by
    rw [quizTopicStats, quizTopicStatsGo_correctSum]
    simp [statsCorrectSum]
  have ht : statsCorrectSum (quizTopicStats quiz.questions answers) +
      statsIncorrectSum (quizTopicStats quiz.questions answers) =
      quiz.questions.length := by
    rw [quizTopicStats, quizTopicStatsGo_totalSum]
    simp [statsCorrectSum, statsIncorrectSum]
  simp only [generateShortAnalysis, statsCorrectSum, statsIncorrectSum] at *
  rw [hc]
  rw [hc] at ht
  rw [ht]
  exact ⟨rfl, rfl, rfl⟩

/-- Claim C10: on every successful weekly submission the persisted
attempt and its embedded analysis agree — the attempt's score equals the
analysis's overall score, both max scores equal the number of quiz
questions, and the percentages coincide (every question lands in exactly
one topic bucket, graded with the same answer-equality test). -/
theorem submitQuiz_attempt_analysis_agree (s : State)
    (req : QuizSubmissionRequest) (newId now : String) (s' : State)
    (resp : QuizSubmissionResponse)
    (h : submitQuiz s req newId now = (s', .ok resp)) :
    resp.attempt.score = resp.analysis.overallScore ∧
    resp.attempt.maxScore = resp.analysis.maxScore ∧
    (∃ quiz, getQuiz s req.courseId req.weekNumber req.quizType = some quiz ∧
      resp.analysis.maxScore = (quiz.questions.length : ℚ)) ∧
    resp.attempt.percentage = resp.analysis.percentage := by
  rw [submitQuiz] at h
  cases hq : getQuiz s req.courseId req.weekNumber req.quizType with
  | none =>
    rw [hq] at h
    exact absurd (congrArg Prod.snd h) (by simp)
  | some quiz =>
    rw [hq] at h
    dsimp only at h
    by_cases hid : quiz.id ≠ req.quizId
    · rw [if_pos hid] at h
      exact absurd (congrArg Prod.snd h) (by simp)
    · rw [if_neg hid] at h
      by_cases hdup : req.quizType = "main" ∧
          hasCompletedMainQuiz s.attempts req.studentId req.courseId
            req.weekNumber
      · rw [if_pos hdup] at h
        exact absurd (congrArg Prod.snd h) (by simp)
      · rw [if_neg hdup] at h
        obtain ⟨-, hresp⟩ := Prod.mk.injEq .. ▸ h
        have hresp' := hresp
        simp only [Except.ok.injEq] at hresp'
        subst hresp'
        obtain ⟨h1, h2, h3⟩ := generateShortAnalysis_totals quiz req.answers
        refine ⟨?_, ?_, ⟨quiz, rfl, h2⟩, ?_⟩
        · rw [h1]
        · rw [h2]
        · rw [h3]

def c10Quiz : WeeklyQuiz :=
  { id := "qz10", courseId := "c10", weekNumber := 1, quizType := "main",
    title := "Week 1 Main Quiz", description := "",
    questions :=
      [{ id := "q1", question := "?", options := ["a", "b"],
         correctAnswer := 0, topicId := some "t1", topicTitle := some "T1",
         conceptId := none, difficultyLevel := "medium", isBonus := false },
       { id := "q2", question := "?", options := ["a", "b"],
         correctAnswer := 0, topicId := some "t2", topicTitle := some "T2",
         conceptId := none, difficultyLevel := "medium", isBonus := false }],
    topicIds := ["t1", "t2"], createdAt := "t0", maxScore := 2 }

def c10State : State :=
  { quizzes := [c10Quiz], attempts := [], performance := [], pretests := [],
    pretestAttempts := [] }

def c10Req : QuizSubmissionRequest :=
  { studentId := "s1", courseId := "c10", weekNumber := 1, quizType := "main",
    quizId := "qz10", answers := [("q1", 0), ("q2", 1)] }

def c10Resp : QuizSubmissionResponse :=
  match (submitQuiz c10State c10Req "at10" "tm10").2 with
  | .ok r => r
  | .error _ => default

theorem submitQuiz_attempt_analysis_agree_witness :
    c10Resp.attempt.score = c10Resp.analysis.overallScore ∧
    c10Resp.attempt.maxScore = c10Resp.analysis.maxScore ∧
    (∃ quiz, getQuiz c10State c10Req.courseId c10Req.weekNumber
        c10Req.quizType = some quiz ∧
      c10Resp.analysis.maxScore = (quiz.questions.length : ℚ)) ∧
    c10Resp.attempt.percentage = c10Resp.analysis.percentage :=
  submitQuiz_attempt_analysis_agree c10State c10Req "at10" "tm10"
    (submitQuiz c10State c10Req "at10" "tm10").1 c10Resp (by decide)

/-! ## Claim C3 -/

/-- The attempts persisted for one (student, course) pair — the filter
`update_student_performance` applies to the loaded attempt log. -/
def studentAttempts (s : State) (sid cid : String) :
    List WeeklyQuizAttempt :=
  s.attempts.filter (fun a => a.studentId == sid && a.courseId == cid)

/-- Correct tally contributed to topic `t` by one breakdown list. -/
def breakdownCorrect (t : String) (bd : List QuizTopicPerformance) : Nat :=
  ((bd.filter (fun tp => tp.topicId == t)).map (·.correctCount)).sum

def breakdownAttempted (t : String) (bd : List QuizTopicPerformance) : Nat :=
  ((bd.filter (fun tp => tp.topicId == t)).map (·.questionsCount)).sum

/-- Correct tally contributed to topic `t` by one attempt's embedded
analysis (zero when the attempt has none). -/
def attemptCorrect (t : String) (a : WeeklyQuizAttempt) : Nat :=
  match a.analysis with
  | some an => breakdownCorrect t an.topicBreakdown
  | none => 0

def attemptAttempted (t : String) (a : WeeklyQuizAttempt) : Nat :=
  match a.analysis with
  | some an => breakdownAttempted t an.topicBreakdown
  | none => 0

/-- Sum of `correctCount` over every attempt's embedded analysis for
topic `t` — the spec's lifetime numerator. -/
def topicCorrectSum (t : String) (attempts : List WeeklyQuizAttempt) : Nat :=
  (attempts.map (attemptCorrect t)).sum

/-- Sum of `questionsCount` over every attempt's embedded analysis for
topic `t` — the spec's lifetime denominator. -/
def topicAttemptedSum (t : String) (attempts : List WeeklyQuizAttempt) : Nat :=
  (attempts.map (attemptAttempted t)).sum

def aggValC (stats : List (String × AggStat)) (t : String) : Nat :=
  ((stats.filter (fun kv => kv.1 == t)).map (·.2.totalCorrect)).sum

def aggValA (stats : List (String × AggStat)) (t : String) : Nat :=
  ((stats.filter (fun kv => kv.1 == t)).map (·.2.totalAttempted)).sum

theorem aggValC_nil (t : String) : aggValC [] t = 0 := by
  simp [aggValC]

theorem aggValA_nil (t : String) : aggValA [] t = 0 := by
  simp [aggValA]

theorem aggValC_cons (k : String) (st : AggStat)
    (rest : List (String × AggStat)) (t : String) :
    aggValC ((k, st) :: rest) t =
      (if k = t then st.totalCorrect else 0) + aggValC rest t := by
  by_cases hk : k = t
  · subst hk
    simp [aggValC, List.filter_cons]
  · simp [aggValC, List.filter_cons, hk]

theorem aggValA_cons (k : String) (st : AggStat)
    (rest : List (String × AggStat)) (t : String) :
    aggValA ((k, st) :: rest) t =
      (if k = t then st.totalAttempted else 0) + aggValA rest t := by
  by_cases hk : k = t
  · subst hk
    simp [aggValA, List.filter_cons]
  · simp [aggValA, List.filter_cons, hk]

theorem bumpAgg_valC (stats : List (String × AggStat)) (u : String)
    (c q : Nat) (t : String) :
    aggValC (bumpAgg stats u c q) t =
      aggValC stats t + (if t = u then c else 0) := by
  induction stats with
  | nil =>
    rw [bumpAgg, aggValC_cons, aggValC_nil]
    by_cases ht : t = u
    · subst ht
      simp
    · rw [if_neg (fun h => ht h.symm), if_neg ht]
  | cons kv rest ih =>
    obtain ⟨k, st⟩ := kv
    rw [bumpAgg]
    by_cases hk : k = u
    · subst hk
      rw [if_pos rfl, aggValC_cons, aggValC_cons]
      by_cases ht : k = t
      · subst ht
        simp
        omega
      · have ht2 : ¬ t = k := fun h => ht h.symm
        simp [ht, ht2]
    · rw [if_neg hk, aggValC_cons, aggValC_cons, ih]
      omega

theorem bumpAgg_valA (stats : List (String × AggStat)) (u : String)
    (c q : Nat) (t : String) :
    aggValA (bumpAgg stats u c q) t =
      aggValA stats t + (if t = u then q else 0) := by
  induction stats with
  | nil =>
    rw [bumpAgg, aggValA_cons, aggValA_nil]
    by_cases ht : t = u
    · subst ht
      simp
    · rw [if_neg (fun h => ht h.symm), if_neg ht]
  | cons kv rest ih =>
    obtain ⟨k, st⟩ := kv
    rw [bumpAgg]
    by_cases hk : k = u
    · subst hk
      rw [if_pos rfl, aggValA_cons, aggValA_cons]
      by_cases ht : k = t
      · subst ht
        simp
        omega
      · have ht2 : ¬ t = k := fun h => ht h.symm
        simp [ht, ht2]
    · rw [if_neg hk, aggValA_cons, aggValA_cons, ih]
      omega

theorem bumpAgg_keys_mem (stats : List (String × AggStat)) (u : String)
    (c q : Nat) (x : String) :
    x ∈ (bumpAgg stats u c q).map Prod.fst ↔
      x ∈ stats.map Prod.fst ∨ x = u := by
  induction stats with
  | nil => simp [bumpAgg]
  | cons kv rest ih =>
    obtain ⟨k, st⟩ := kv
    rw [bumpAgg]
    by_cases hk : k = u
    · subst hk
      rw [if_pos rfl]
      simp only [List.map_cons, List.mem_cons]
      tauto
    · rw [if_neg hk]
      simp only [List.map_cons, List.mem_cons, ih]
      tauto

theorem bumpAgg_keys_nodup (stats : List (String × AggStat)) (u : String)
    (c q : Nat) (h : (stats.map Prod.fst).Nodup) :
    ((bumpAgg stats u c q).map Prod.fst).Nodup := by
  induction stats with
  | nil => simp [bumpAgg]
  | cons kv rest ih =>
    obtain ⟨k, st⟩ := kv
    rw [List.map_cons, List.nodup_cons] at h
    rw [bumpAgg]
    by_cases hk : k = u
    · subst hk
      rw [if_pos rfl, List.map_cons, List.nodup_cons]
      exact h
    · rw [if_neg hk, List.map_cons, List.nodup_cons]
      refine ⟨fun hmem => ?_, ih h.2⟩
      rcases (bumpAgg_keys_mem rest u c q k).mp hmem with hm | hm
      · exact h.1 hm
      · exact hk hm

theorem aggVal_eq_zero_of_not_mem (stats : List (String × AggStat))
    (t : String) (h : t ∉ stats.map Prod.fst) :
    aggValC stats t = 0 ∧ aggValA stats t = 0 := by
  induction stats with
  | nil => exact ⟨aggValC_nil t, aggValA_nil t⟩
  | cons kv rest ih =>
    obtain ⟨k, st⟩ := kv
    rw [List.map_cons] at h
    have h1 : ¬ (k = t) := fun he => h (List.mem_cons.mpr (Or.inl he.symm))
    have h2 : t ∉ rest.map Prod.fst :=
      fun hm => h (List.mem_cons.mpr (Or.inr hm))
    obtain ⟨hc, ha⟩ := ih h2
    rw [aggValC_cons, aggValA_cons, if_neg h1, if_neg h1, hc, ha]
    exact ⟨rfl, rfl⟩

theorem mem_find_of_nodup {β : Type} (l : List (String × β)) (t : String)
    (b : β) (hnd : (l.map Prod.fst).Nodup) (hmem : (t, b) ∈ l) :
    l.find? (fun kv => kv.1 == t) = some (t, b) := by
  induction l with
  | nil => exact absurd hmem (List.not_mem_nil _)
  | cons kv rest ih =>
    obtain ⟨k, v⟩ := kv
    rw [List.map_cons, List.nodup_cons] at hnd
    rcases List.mem_cons.mp hmem with he | hm
    · rw [← he]
      exact List.find?_cons_of_pos rest (by simp)
    · have hk : ¬ (k = t) := by
        intro he2
        subst he2
        exact hnd.1 (List.mem_map.mpr ⟨(k, b), hm, rfl⟩)
      rw [List.find?_cons_of_neg rest (by simp [hk])]
      exact ih hnd.2 hm

theorem find_some_vals (stats : List (String × AggStat)) (t : String)
    (kv : String × AggStat)
    (hnd : (stats.map Prod.fst).Nodup)
    (hf : stats.find? (fun kv => kv.1 == t) = some kv) :
    kv.1 = t ∧ kv.2.totalCorrect = aggValC stats t ∧
      kv.2.totalAttempted = aggValA stats t := by
  have hk : kv.1 = t := by
    have := List.find?_some hf
    simpa [beq_iff_eq] using this
  refine ⟨hk, ?_⟩
  induction stats with
  | nil => exact absurd hf (by simp)
  | cons hd rest ih =>
    obtain ⟨k, v⟩ := hd
    rw [List.map_cons, List.nodup_cons] at hnd
    by_cases hkt : k = t
    · subst hkt
      rw [List.find?_cons_of_pos rest (by simp)] at hf
      injection hf with hkv
      subst hkv
      obtain ⟨hc0, ha0⟩ := aggVal_eq_zero_of_not_mem rest k hnd.1
      rw [aggValC_cons, aggValA_cons, if_pos rfl, if_pos rfl, hc0, ha0]
      exact ⟨by simp, by simp⟩
    · rw [List.find?_cons_of_neg rest (by simp [hkt])] at hf
      have := ih hnd.2 hf
      rw [aggValC_cons, aggValA_cons, if_neg hkt, if_neg hkt]
      omega

theorem find_none_vals (stats : List (String × AggStat)) (t : String)
    (hf : stats.find? (fun kv => kv.1 == t) = none) :
    aggValC stats t = 0 ∧ aggValA stats t = 0 := by
  refine aggVal_eq_zero_of_not_mem stats t (fun hmem => ?_)
  obtain ⟨kv, hkv, hk⟩ := List.mem_map.mp hmem
  have := List.find?_eq_none.mp hf kv hkv
  simp [beq_iff_eq, hk] at this

theorem breakdownCorrect_cons (t : String) (tp : QuizTopicPerformance)
    (rest : List QuizTopicPerformance) :
    breakdownCorrect t (tp :: rest) =
      (if tp.topicId = t then tp.correctCount else 0) +
        breakdownCorrect t rest := by
  by_cases h : tp.topicId = t <;>
    simp [breakdownCorrect, List.filter_cons, h]

theorem breakdownAttempted_cons (t : String) (tp : QuizTopicPerformance)
    (rest : List QuizTopicPerformance) :
    breakdownAttempted t (tp :: rest) =
      (if tp.topicId = t then tp.questionsCount else 0) +
        breakdownAttempted t rest := by
  by_cases h : tp.topicId = t <;>
    simp [breakdownAttempted, List.filter_cons, h]

theorem foldBd_valC (bd : List QuizTopicPerformance)
    (stats : List (String × AggStat)) (t : String) :
    aggValC
      (bd.foldl
        (fun st tp => bumpAgg st tp.topicId tp.correctCount tp.questionsCount)
        stats) t =
      aggValC stats t + breakdownCorrect t bd := by
  induction bd generalizing stats with
  | nil => simp [breakdownCorrect]
  | cons tp rest ih =>
    rw [List.foldl_cons, ih, bumpAgg_valC, breakdownCorrect_cons]
    by_cases ht : t = tp.topicId
    · rw [if_pos ht, if_pos ht.symm]
      omega
    · rw [if_neg ht, if_neg (fun h => ht h.symm)]
      omega

theorem foldBd_valA (bd : List QuizTopicPerformance)
    (stats : List (String × AggStat)) (t : String) :
    aggValA
      (bd.foldl
        (fun st tp => bumpAgg st tp.topicId tp.correctCount tp.questionsCount)
        stats) t =
      aggValA stats t + breakdownAttempted t bd := by
  induction bd generalizing stats with
  | nil => simp [breakdownAttempted]
  | cons tp rest ih =>
    rw [List.foldl_cons, ih, bumpAgg_valA, breakdownAttempted_cons]
    by_cases ht : t = tp.topicId
    · rw [if_pos ht, if_pos ht.symm]
      omega
    · rw [if_neg ht, if_neg (fun h => ht h.symm)]
      omega

theorem foldBd_keys_nodup (bd : List QuizTopicPerformance)
    (stats : List (String × AggStat))
    (h : (stats.map Prod.fst).Nodup) :
    ((bd.foldl
        (fun st tp => bumpAgg st tp.topicId tp.correctCount tp.questionsCount)
        stats).map Prod.fst).Nodup := by
  induction bd generalizing stats with
  | nil => exact h
  | cons tp rest ih =>
    rw [List.foldl_cons]
    exact ih _ (bumpAgg_keys_nodup stats tp.topicId _ _ h)

theorem aggAttempt_valC (stats : List (String × AggStat))
    (a : WeeklyQuizAttempt) (t : String) :
    aggValC (aggAttempt stats a) t = aggValC stats t + attemptCorrect t a := by
  rw [aggAttempt, attemptCorrect]
  cases han : a.analysis with
  | none => simp
  | some an =>
    by_cases he : an.topicBreakdown.isEmpty
    · have hbd : an.topicBreakdown = [] := by
        cases hbd : an.topicBreakdown
        · rfl
        · rw [hbd] at he; exact absurd he (by simp)
      simp [he, hbd, breakdownCorrect]
    · simp only [he, if_false, Bool.false_eq_true]
      exact foldBd_valC an.topicBreakdown stats t

theorem aggAttempt_valA (stats : List (String × AggStat))
    (a : WeeklyQuizAttempt) (t : String) :
    aggValA (aggAttempt stats a) t = aggValA stats t + attemptAttempted t a := by
  rw [aggAttempt, attemptAttempted]
  cases han : a.analysis with
  | none => simp
  | some an =>
    by_cases he : an.topicBreakdown.isEmpty
    · have hbd : an.topicBreakdown = [] := by
        cases hbd : an.topicBreakdown
        · rfl
        · rw [hbd] at he; exact absurd he (by simp)
      simp [he, hbd, breakdownAttempted]
    · simp only [he, if_false, Bool.false_eq_true]
      exact foldBd_valA an.topicBreakdown stats t

theorem aggAttempt_keys_nodup (stats : List (String × AggStat))
    (a : WeeklyQuizAttempt) (h : (stats.map Prod.fst).Nodup) :
    ((aggAttempt stats a).map Prod.fst).Nodup := by
  rw [aggAttempt]
  cases a.analysis with
  | none => exact h
  | some an =>
    by_cases he : an.topicBreakdown.isEmpty
    · simpa [he] using h
    · simp only [he, if_false, Bool.false_eq_true]
      exact foldBd_keys_nodup an.topicBreakdown stats h

theorem foldAtts_valC (atts : List WeeklyQuizAttempt)
    (stats : List (String × AggStat)) (t : String) :
    aggValC (atts.foldl aggAttempt stats) t =
      aggValC stats t + topicCorrectSum t atts := by
  induction atts generalizing stats with
  | nil => simp [topicCorrectSum]
  | cons a rest ih =>
    rw [List.foldl_cons, ih, aggAttempt_valC]
    simp [topicCorrectSum]
    omega

theorem foldAtts_valA (atts : List WeeklyQuizAttempt)
    (stats : List (String × AggStat)) (t : String) :
    aggValA (atts.foldl aggAttempt stats) t =
      aggValA stats t + topicAttemptedSum t atts := by
  induction atts generalizing stats with
  | nil => simp [topicAttemptedSum]
  | cons a rest ih =>
    rw [List.foldl_cons, ih, aggAttempt_valA]
    simp [topicAttemptedSum]
    omega

theorem aggregateStats_valC (atts : List WeeklyQuizAttempt) (t : String) :
    aggValC (aggregateStats atts) t = topicCorrectSum t atts := by
  rw [aggregateStats, foldAtts_valC, aggValC_nil]
  omega

theorem aggregateStats_valA (atts : List WeeklyQuizAttempt) (t : String) :
    aggValA (aggregateStats atts) t = topicAttemptedSum t atts := by
  rw [aggregateStats, foldAtts_valA, aggValA_nil]
  omega

theorem aggregateStats_keys_nodup (atts : List WeeklyQuizAttempt) :
    ((aggregateStats atts).map Prod.fst).Nodup := by
  rw [aggregateStats]
  have : ∀ stats : List (String × AggStat), (stats.map Prod.fst).Nodup →
      ((atts.foldl aggAttempt stats).map Prod.fst).Nodup := by
    induction atts with
    | nil => exact fun stats h => h
    | cons a rest ih =>
      intro stats h
      rw [List.foldl_cons]
      exact ih _ (aggAttempt_keys_nodup stats a h)
  exact this [] (by simp)

theorem keys_filterMap_sublist {β γ : Type} (l : List (String × β))
    (f : String × β → Option (String × γ))
    (hf : ∀ kv x, f kv = some x → x.1 = kv.1) :
    ((l.filterMap f).map Prod.fst).Sublist (l.map Prod.fst) := by
  induction l with
  | nil => simp
  | cons kv rest ih =>
    rw [List.filterMap_cons]
    cases hfk : f kv with
    | none =>
      rw [List.map_cons]
      exact (ih).cons kv.1
    | some x =>
      rw [List.map_cons, List.map_cons, hf kv x hfk]
      exact (ih).cons₂ kv.1

/-- Lookup in the persisted topic-percentage map. -/
def perfLookupPct (perf : StudentStrengthWeakness) (t : String) : Option ℚ :=
  (perf.topicPerformance.find? (fun kv => kv.1 == t)).map (·.2)

/-- The spec's lifetime percentage for a topic over an attempt log:
`100 * (sum of correctCount) / (sum of questionsCount)`. -/
def masteryPct (t : String) (attempts : List WeeklyQuizAttempt) : ℚ :=
  100 * (topicCorrectSum t attempts : ℚ) / (topicAttemptedSum t attempts : ℚ)

theorem strengths_mem_iff (stats : List (String × AggStat))
    (hnd : (stats.map Prod.fst).Nodup) (t : String) :
    (t ∈ stats.filterMap (fun kv =>
      if kv.2.totalAttempted > 0 ∧ aggPct kv.2 > 75 then some kv.1
      else none)) ↔
    ∃ kv, stats.find? (fun kv => kv.1 == t) = some kv ∧
      kv.2.totalAttempted > 0 ∧ aggPct kv.2 > 75 := by
  rw [List.mem_filterMap]
  constructor
  · rintro ⟨kv, hmem, hite⟩
    by_cases hc : kv.2.totalAttempted > 0 ∧ aggPct kv.2 > 75
    · rw [if_pos hc] at hite
      have hk : kv.1 = t := Option.some.inj hite
      have hkv : kv = (t, kv.2) := by rw [← hk]
      rw [hkv] at hmem
      exact ⟨(t, kv.2), mem_find_of_nodup stats t kv.2 hnd hmem, hc⟩
    · rw [if_neg hc] at hite
      exact Option.noConfusion hite
  · rintro ⟨kv, hf, hc⟩
    have hk : kv.1 = t := by
      have := List.find?_some hf
      simpa [beq_iff_eq] using this
    exact ⟨kv, List.mem_of_find?_eq_some hf, by rw [if_pos hc, hk]⟩

theorem weaknesses_mem_iff (stats : List (String × AggStat))
    (hnd : (stats.map Prod.fst).Nodup) (t : String) :
    (t ∈ stats.filterMap (fun kv =>
      if kv.2.totalAttempted > 0 ∧ ¬(aggPct kv.2 > 75) ∧ aggPct kv.2 < 50 then
        some kv.1
      else none)) ↔
    ∃ kv, stats.find? (fun kv => kv.1 == t) = some kv ∧
      kv.2.totalAttempted > 0 ∧ ¬(aggPct kv.2 > 75) ∧ aggPct kv.2 < 50 := by
  rw [List.mem_filterMap]
  constructor
  · rintro ⟨kv, hmem, hite⟩
    by_cases hc : kv.2.totalAttempted > 0 ∧ ¬(aggPct kv.2 > 75) ∧
        aggPct kv.2 < 50
    · rw [if_pos hc] at hite
      have hk : kv.1 = t := Option.some.inj hite
      have hkv : kv = (t, kv.2) := by rw [← hk]
      rw [hkv] at hmem
      exact ⟨(t, kv.2), mem_find_of_nodup stats t kv.2 hnd hmem, hc⟩
    · rw [if_neg hc] at hite
      exact Option.noConfusion hite
  · rintro ⟨kv, hf, hc⟩
    have hk : kv.1 = t := by
      have := List.find?_some hf
      simpa [beq_iff_eq] using this
    exact ⟨kv, List.mem_of_find?_eq_some hf, by rw [if_pos hc, hk]⟩

theorem pctMap_lookup_iff (stats : List (String × AggStat))
    (hnd : (stats.map Prod.fst).Nodup) (t : String) (p : ℚ) :
    ((stats.filterMap (fun kv =>
        if kv.2.totalAttempted > 0 then some (kv.1, aggPct kv.2)
        else none)).find? (fun kv => kv.1 == t)).map (·.2) = some p ↔
    ∃ kv, stats.find? (fun kv => kv.1 == t) = some kv ∧
      kv.2.totalAttempted > 0 ∧ aggPct kv.2 = p := by
  have hsub := keys_filterMap_sublist stats
    (fun kv => if kv.2.totalAttempted > 0 then some (kv.1, aggPct kv.2)
      else none)
    (fun kv x hx => by
      dsimp only at hx
      by_cases hc : kv.2.totalAttempted > 0
      · rw [if_pos hc] at hx
        rw [← Option.some.inj hx]
      · rw [if_neg hc] at hx
        exact Option.noConfusion hx)
  have hndf := hnd.sublist hsub
  constructor
  · intro hmap
    cases hft : (stats.filterMap (fun kv =>
        if kv.2.totalAttempted > 0 then some (kv.1, aggPct kv.2)
        else none)).find? (fun kv => kv.1 == t) with
    | none => rw [hft] at hmap; exact Option.noConfusion hmap
    | some pr =>
      rw [hft, Option.map_some'] at hmap
      have hp : pr.2 = p := Option.some.inj hmap
      have hprt : pr.1 = t := by
        have := List.find?_some hft
        simpa [beq_iff_eq] using this
      have hprmem := List.mem_of_find?_eq_some hft
      obtain ⟨kv, hkvmem, hite⟩ := List.mem_filterMap.mp hprmem
      by_cases hc : kv.2.totalAttempted > 0
      · rw [if_pos hc] at hite
        have hpr : pr = (kv.1, aggPct kv.2) := (Option.some.inj hite).symm
        have hk : kv.1 = t := by rw [hpr] at hprt; exact hprt
        have hkv : kv = (t, kv.2) := by rw [← hk]
        rw [hkv] at hkvmem
        refine ⟨(t, kv.2), mem_find_of_nodup stats t kv.2 hnd hkvmem, hc, ?_⟩
        rw [← hp, hpr]
      · rw [if_neg hc] at hite
        exact Option.noConfusion hite
  · rintro ⟨kv, hf, hc, hp⟩
    have hk : kv.1 = t := by
      have := List.find?_some hf
      simpa [beq_iff_eq] using this
    have hmem : (t, aggPct kv.2) ∈ stats.filterMap (fun kv =>
        if kv.2.totalAttempted > 0 then some (kv.1, aggPct kv.2)
        else none) :=
      List.mem_filterMap.mpr ⟨kv, List.mem_of_find?_eq_some hf,
        by rw [if_pos hc, hk]⟩
    rw [mem_find_of_nodup _ t (aggPct kv.2) hndf hmem, Option.map_some', hp]

/-- Full characterisation of the recomputed mastery profile: the topic
percentage map holds exactly the topics with a positive lifetime
denominator, at the lifetime percentage; strengths are the topics
strictly above 75, weaknesses those strictly below 50. -/
theorem recomputePerformance_spec (sid cid now : String)
    (allAtts : List WeeklyQuizAttempt) (t : String) :
    (∀ p : ℚ,
      perfLookupPct (recomputePerformance sid cid now allAtts) t = some p ↔
        (0 < topicAttemptedSum t
            (allAtts.filter (fun a => a.studentId == sid && a.courseId == cid)) ∧
          p = masteryPct t
            (allAtts.filter (fun a => a.studentId == sid && a.courseId == cid)))) ∧
    (t ∈ (recomputePerformance sid cid now allAtts).strengths ↔
      (0 < topicAttemptedSum t
          (allAtts.filter (fun a => a.studentId == sid && a.courseId == cid)) ∧
        masteryPct t
          (allAtts.filter (fun a => a.studentId == sid && a.courseId == cid)) > 75)) ∧
    (t ∈ (recomputePerformance sid cid now allAtts).weaknesses ↔
      (0 < topicAttemptedSum t
          (allAtts.filter (fun a => a.studentId == sid && a.courseId == cid)) ∧
        masteryPct t
          (allAtts.filter (fun a => a.studentId == sid && a.courseId == cid)) < 50)) := by
  set mine := allAtts.filter (fun a => a.studentId == sid && a.courseId == cid)
    with hmine
  set stats := aggregateStats mine with hstats
  have hnd : (stats.map Prod.fst).Nodup := aggregateStats_keys_nodup mine
  have hvC : aggValC stats t = topicCorrectSum t mine :=
    aggregateStats_valC mine t
  have hvA : aggValA stats t = topicAttemptedSum t mine :=
    aggregateStats_valA mine t
  have hsome : 0 < topicAttemptedSum t mine →
      ∃ kv, stats.find? (fun kv => kv.1 == t) = some kv := by
    intro hA
    cases hf : stats.find? (fun kv => kv.1 == t) with
    | none =>
      have hz := (find_none_vals stats t hf).2
      rw [hvA] at hz
      omega
    | some kv => exact ⟨kv, rfl⟩
  have hvals : ∀ kv, stats.find? (fun kv => kv.1 == t) = some kv →
      kv.2.totalCorrect = topicCorrectSum t mine ∧
      kv.2.totalAttempted = topicAttemptedSum t mine := by
    intro kv hf
    obtain ⟨-, h2, h3⟩ := find_some_vals stats t kv hnd hf
    exact ⟨by rw [h2, hvC], by rw [h3, hvA]⟩
  have hstr : (recomputePerformance sid cid now allAtts).strengths =
      stats.filterMap (fun kv =>
        if kv.2.totalAttempted > 0 ∧ aggPct kv.2 > 75 then some kv.1
        else none) := rfl
  have hwk : (recomputePerformance sid cid now allAtts).weaknesses =
      stats.filterMap (fun kv =>
        if kv.2.totalAttempted > 0 ∧ ¬(aggPct kv.2 > 75) ∧ aggPct kv.2 < 50 then
          some kv.1
        else none) := rfl
  have htp : (recomputePerformance sid cid now allAtts).topicPerformance =
      stats.filterMap (fun kv =>
        if kv.2.totalAttempted > 0 then some (kv.1, aggPct kv.2)
        else none) := rfl
  refine ⟨?_, ?_, ?_⟩
  · intro p
    rw [perfLookupPct, htp, pctMap_lookup_iff stats hnd t p]
    constructor
    · rintro ⟨kv, hf, hc, hp⟩
      obtain ⟨h2, h3⟩ := hvals kv hf
      have hA : 0 < topicAttemptedSum t mine := by rw [← h3]; exact hc
      refine ⟨hA, ?_⟩
      rw [← hp, aggPct_eq kv.2 hc, h2, h3, masteryPct]
    · rintro ⟨hA, hp⟩
      obtain ⟨kv, hf⟩ := hsome hA
      obtain ⟨h2, h3⟩ := hvals kv hf
      have hc : kv.2.totalAttempted > 0 := by rw [h3]; exact hA
      refine ⟨kv, hf, hc, ?_⟩
      rw [aggPct_eq kv.2 hc, h2, h3, hp, masteryPct]
  · rw [hstr, strengths_mem_iff stats hnd t]
    constructor
    · rintro ⟨kv, hf, hc, hgt⟩
      obtain ⟨h2, h3⟩ := hvals kv hf
      have hA : 0 < topicAttemptedSum t mine := by rw [← h3]; exact hc
      refine ⟨hA, ?_⟩
      rw [aggPct_eq kv.2 hc, h2, h3] at hgt
      rw [masteryPct]
      exact hgt
    · rintro ⟨hA, hgt⟩
      obtain ⟨kv, hf⟩ := hsome hA
      obtain ⟨h2, h3⟩ := hvals kv hf
      have hc : kv.2.totalAttempted > 0 := by rw [h3]; exact hA
      refine ⟨kv, hf, hc, ?_⟩
      rw [aggPct_eq kv.2 hc, h2, h3]
      rw [masteryPct] at hgt
      exact hgt
  · rw [hwk, weaknesses_mem_iff stats hnd t]
    constructor
    · rintro ⟨kv, hf, hc, -, hlt⟩
      obtain ⟨h2, h3⟩ := hvals kv hf
      have hA : 0 < topicAttemptedSum t mine := by rw [← h3]; exact hc
      refine ⟨hA, ?_⟩
      rw [aggPct_eq kv.2 hc, h2, h3] at hlt
      rw [masteryPct]
      exact hlt
    · rintro ⟨hA, hlt⟩
      obtain ⟨kv, hf⟩ := hsome hA
      obtain ⟨h2, h3⟩ := hvals kv hf
      have hc : kv.2.totalAttempted > 0 := by rw [h3]; exact hA
      have hlt' : aggPct kv.2 < 50 := by
        rw [aggPct_eq kv.2 hc, h2, h3]
        rw [masteryPct] at hlt
        exact hlt
      exact ⟨kv, hf, hc, by linarith, hlt'⟩

theorem find_savePerformance (ps : List StudentStrengthWeakness)
    (p : StudentStrengthWeakness) :
    (savePerformance ps p).find?
      (fun q => q.studentId == p.studentId && q.courseId == p.courseId) =
      some p := by
  rw [savePerformance]
  induction ps with
  | nil => simp [List.find?]
  | cons q rest ih =>
    rw [List.filter_cons]
    cases hq : (q.studentId == p.studentId && q.courseId == p.courseId) with
    | true =>
      simp only [hq, Bool.not_true]
      simpa using ih
    | false =>
      simp only [hq, Bool.not_false, if_true]
      rw [List.cons_append, List.find?_cons_of_neg _ (by simp [hq])]
      exact ih

/-- Claim C3: after every successful weekly-quiz submission the stored
mastery profile for the (student, course) pair is the full refold of all
persisted attempts: per topic, the lifetime percentage is
100·(Σ correctCount)/(Σ questionsCount) over every attempt's embedded
analysis whenever the denominator is positive; a topic is a strength iff
that percentage exceeds 75, a weakness iff it is below 50, and for
percentages in [50, 75] it is in neither list while staying in the map. -/
theorem submitQuiz_mastery_refold (s : State) (req : QuizSubmissionRequest)
    (newId now : String) (s' : State) (resp : QuizSubmissionResponse)
    (h : submitQuiz s req newId now = (s', .ok resp)) :
    ∃ perf, lookupPerformance s' req.studentId req.courseId = some perf ∧
      (∀ t p, perfLookupPct perf t = some p ↔
        (0 < topicAttemptedSum t
            (studentAttempts s' req.studentId req.courseId) ∧
          p = masteryPct t (studentAttempts s' req.studentId req.courseId))) ∧
      (∀ t, t ∈ perf.strengths ↔
        (0 < topicAttemptedSum t
            (studentAttempts s' req.studentId req.courseId) ∧
          masteryPct t (studentAttempts s' req.studentId req.courseId) > 75)) ∧
      (∀ t, t ∈ perf.weaknesses ↔
        (0 < topicAttemptedSum t
            (studentAttempts s' req.studentId req.courseId) ∧
          masteryPct t (studentAttempts s' req.studentId req.courseId) < 50)) ∧
      (∀ t,
        0 < topicAttemptedSum t (studentAttempts s' req.studentId req.courseId) →
        50 ≤ masteryPct t (studentAttempts s' req.studentId req.courseId) →
        masteryPct t (studentAttempts s' req.studentId req.courseId) ≤ 75 →
        t ∉ perf.strengths ∧ t ∉ perf.weaknesses ∧
          perfLookupPct perf t =
            some (masteryPct t (studentAttempts s' req.studentId req.courseId))) := by
  rw [submitQuiz] at h
  cases hq : getQuiz s req.courseId req.weekNumber req.quizType with
  | none =>
    rw [hq] at h
    exact absurd (congrArg Prod.snd h) (by simp)
  | some quiz =>
    rw [hq] at h
    dsimp only at h
    by_cases hid : quiz.id ≠ req.quizId
    · rw [if_pos hid] at h
      exact absurd (congrArg Prod.snd h) (by simp)
    · rw [if_neg hid] at h
      by_cases hdup : req.quizType = "main" ∧
          hasCompletedMainQuiz s.attempts req.studentId req.courseId
            req.weekNumber
      · rw [if_pos hdup] at h
        exact absurd (congrArg Prod.snd h) (by simp)
      · rw [if_neg hdup] at h
        obtain ⟨hs, -⟩ := Prod.mk.injEq .. ▸ h
        have hperf : s'.performance = savePerformance s.performance
            (recomputePerformance req.studentId req.courseId now
              s'.attempts) := by
          rw [← hs]
          rfl
        refine ⟨recomputePerformance req.studentId req.courseId now
          s'.attempts, ?_, ?_, ?_, ?_, ?_⟩
        · rw [lookupPerformance, hperf]
          exact find_savePerformance s.performance
            (recomputePerformance req.studentId req.courseId now s'.attempts)
        · intro t p
          exact (recomputePerformance_spec req.studentId req.courseId now
            s'.attempts t).1 p
        · intro t
          exact (recomputePerformance_spec req.studentId req.courseId now
            s'.attempts t).2.1
        · intro t
          exact (recomputePerformance_spec req.studentId req.courseId now
            s'.attempts t).2.2
        · intro t hA h50 h75
          obtain ⟨hmap, hstr, hwk⟩ := recomputePerformance_spec
            req.studentId req.courseId now s'.attempts t
          refine ⟨fun hmem => ?_, fun hmem => ?_, ?_⟩
          · have := (hstr.mp hmem).2
            have h75' : masteryPct t
                (studentAttempts s' req.studentId req.courseId) ≤ 75 := h75
            exact absurd this (by exact not_lt.mpr h75')
          · have := (hwk.mp hmem).2
            have h50' : 50 ≤ masteryPct t
                (studentAttempts s' req.studentId req.courseId) := h50
            exact absurd this (by exact not_lt.mpr h50')
          · exact (hmap _).mpr ⟨hA, rfl⟩

def c3Quiz : WeeklyQuiz :=
  { id := "qz3", courseId := "c3", weekNumber := 1, quizType := "main",
    title := "Week 1 Main Quiz", description := "",
    questions :=
      [{ id := "q1", question := "?", options := ["a", "b"],
         correctAnswer := 0, topicId := some "t1", topicTitle := some "T1",
         conceptId := none, difficultyLevel := "medium", isBonus := false },
       { id := "q2", question := "?", options := ["a", "b"],
         correctAnswer := 0, topicId := some "t1", topicTitle := some "T1",
         conceptId := none, difficultyLevel := "medium", isBonus := false }],
    topicIds := ["t1"], createdAt := "t0", maxScore := 2 }

def c3State : State :=
  { quizzes := [c3Quiz], attempts := [], performance := [], pretests := [],
    pretestAttempts := [] }

def c3Req : QuizSubmissionRequest :=
  { studentId := "s1", courseId := "c3", weekNumber := 1, quizType := "main",
    quizId := "qz3", answers := [("q1", 0), ("q2", 1)] }

def c3Out : State × Except Err QuizSubmissionResponse :=
  submitQuiz c3State c3Req "a3" "t3"

def c3RespVal : QuizSubmissionResponse :=
  match c3Out.2 with
  | .ok r => r
  | .error _ => default

theorem submitQuiz_mastery_refold_witness :
    ∃ perf, lookupPerformance c3Out.1 c3Req.studentId c3Req.courseId =
        some perf ∧
      (∀ t p, perfLookupPct perf t = some p ↔
        (0 < topicAttemptedSum t
            (studentAttempts c3Out.1 c3Req.studentId c3Req.courseId) ∧
          p = masteryPct t
            (studentAttempts c3Out.1 c3Req.studentId c3Req.courseId))) ∧
      (∀ t, t ∈ perf.strengths ↔
        (0 < topicAttemptedSum t
            (studentAttempts c3Out.1 c3Req.studentId c3Req.courseId) ∧
          masteryPct t
            (studentAttempts c3Out.1 c3Req.studentId c3Req.courseId) > 75)) ∧
      (∀ t, t ∈ perf.weaknesses ↔
        (0 < topicAttemptedSum t
            (studentAttempts c3Out.1 c3Req.studentId c3Req.courseId) ∧
          masteryPct t
            (studentAttempts c3Out.1 c3Req.studentId c3Req.courseId) < 50)) ∧
      (∀ t,
        0 < topicAttemptedSum t
          (studentAttempts c3Out.1 c3Req.studentId c3Req.courseId) →
        50 ≤ masteryPct t
          (studentAttempts c3Out.1 c3Req.studentId c3Req.courseId) →
        masteryPct t
          (studentAttempts c3Out.1 c3Req.studentId c3Req.courseId) ≤ 75 →
        t ∉ perf.strengths ∧ t ∉ perf.weaknesses ∧
          perfLookupPct perf t =
            some (masteryPct t
              (studentAttempts c3Out.1 c3Req.studentId c3Req.courseId))) :=
  submitQuiz_mastery_refold c3State c3Req "a3" "t3" c3Out.1 c3RespVal
    (by decide)

/-! ## Claim C9 -/

/-- Functional restatement of the running-strict-minimum loop, used to
characterise `selectLoopGo`. -/
def bestWeak : List TopicPerformance → ℚ → Option TopicPerformance
  | [], _ => none
  | tp :: rest, lowest =>
    if tp.performanceLevel = "weak" ∧ tp.percentage < lowest then
      match bestWeak rest tp.percentage with
      | some u => some u
      | none => some tp
    else bestWeak rest lowest

theorem selectLoopGo_eq_bestWeak (bd : List TopicPerformance)
    (best : Option TopicPerformance) (lowest : ℚ) :
    selectLoopGo bd best lowest =
      (match bestWeak bd lowest with
       | some u => some u
       | none => best) := by
  induction bd generalizing best lowest with
  | nil => rfl
  | cons tp rest ih =>
    rw [selectLoopGo, bestWeak]
    by_cases hc : tp.performanceLevel = "weak" ∧ tp.percentage < lowest
    · rw [if_pos hc, if_pos hc, ih]
      cases bestWeak rest tp.percentage <;> rfl
    · rw [if_neg hc, if_neg hc, ih]

theorem bestWeak_eq_none_iff (bd : List TopicPerformance) (lowest : ℚ) :
    bestWeak bd lowest = none ↔
      ∀ tp ∈ bd, ¬(tp.performanceLevel = "weak" ∧ tp.percentage < lowest) := by
  induction bd generalizing lowest with
  | nil => simp [bestWeak]
  | cons tp rest ih =>
    rw [bestWeak]
    by_cases hc : tp.performanceLevel = "weak" ∧ tp.percentage < lowest
    · rw [if_pos hc]
      constructor
      · intro h
        cases hbw : bestWeak rest tp.percentage <;> rw [hbw] at h <;>
          exact Option.noConfusion h
      · intro h
        exact absurd hc (h tp (List.mem_cons_self tp rest))
    · rw [if_neg hc]
      rw [ih]
      constructor
      · intro h u hu
        rcases List.mem_cons.mp hu with he | hm
        · rw [he]; exact hc
        · exact h u hm
      · intro h u hu
        exact h u (List.mem_cons.mpr (Or.inr hu))

theorem bestWeak_eq_some (bd : List TopicPerformance) (lowest : ℚ)
    (t : TopicPerformance) (hf : bestWeak bd lowest = some t) :
    t ∈ bd ∧ t.performanceLevel = "weak" ∧ t.percentage < lowest ∧
      (∀ u ∈ bd, u.performanceLevel = "weak" → u.percentage < lowest →
        t.percentage ≤ u.percentage) ∧
      ∃ l1 l2, bd = l1 ++ t :: l2 ∧
        (∀ u ∈ l1, u.performanceLevel = "weak" → u.percentage < lowest →
          t.percentage < u.percentage) := by
  induction bd generalizing lowest with
  | nil => exact Option.noConfusion hf
  | cons tp rest ih =>
    rw [bestWeak] at hf
    by_cases hc : tp.performanceLevel = "weak" ∧ tp.percentage < lowest
    · rw [if_pos hc] at hf
      cases hbw : bestWeak rest tp.percentage with
      | none =>
        rw [hbw] at hf
        have ht : tp = t := Option.some.inj hf
        subst ht
        have hnone := (bestWeak_eq_none_iff rest tp.percentage).mp hbw
        refine ⟨List.mem_cons_self tp rest, hc.1, hc.2, ?_, [], rest, rfl,
          fun u hu => absurd hu (List.not_mem_nil u)⟩
        intro u hu hw hlt
        rcases List.mem_cons.mp hu with he | hm
        · rw [he]
        · by_contra hgt
          exact hnone u hm ⟨hw, by linarith⟩
      | some u0 =>
        rw [hbw] at hf
        have ht : u0 = t := Option.some.inj hf
        subst ht
        obtain ⟨hmem, hw, hlt, hmin, l1, l2, hsplit, hstrict⟩ := ih _ hbw
        refine ⟨List.mem_cons.mpr (Or.inr hmem), hw, by linarith, ?_,
          tp :: l1, l2, by rw [hsplit]; rfl, ?_⟩
        · intro u hu huw hul
          rcases List.mem_cons.mp hu with he | hm
          · rw [he]; linarith
          · by_cases hup : u.percentage < tp.percentage
            · exact hmin u hm huw hup
            · linarith [not_lt.mp hup]
        · intro u hu huw hul
          rcases List.mem_cons.mp hu with he | hm
          · rw [he]; exact hlt
          · by_cases hup : u.percentage < tp.percentage
            · exact hstrict u hm huw hup
            · linarith [not_lt.mp hup]
    · rw [if_neg hc] at hf
      obtain ⟨hmem, hw, hlt, hmin, l1, l2, hsplit, hstrict⟩ := ih _ hf
      refine ⟨List.mem_cons.mpr (Or.inr hmem), hw, hlt, ?_, tp :: l1, l2,
        by rw [hsplit]; rfl, ?_⟩
      · intro u hu huw hul
        rcases List.mem_cons.mp hu with he | hm
        · exact absurd ⟨he ▸ huw, he ▸ hul⟩ hc
        · exact hmin u hm huw hul
      · intro u hu huw hul
        rcases List.mem_cons.mp hu with he | hm
        · exact absurd ⟨he ▸ huw, he ▸ hul⟩ hc
        · exact hstrict u hm huw hul

theorem pretestTopicLevel_weak_iff (p : ℚ) :
    pretestTopicLevel p = "weak" ↔ p < 60 := by
  rw [pretestTopicLevel]
  by_cases h80 : p ≥ 80
  · rw [if_pos h80]
    constructor
    · intro h; exact absurd h (by decide)
    · intro h; linarith
  · rw [if_neg h80]
    by_cases h60 : p ≥ 60
    · rw [if_pos h60]
      constructor
      · intro h; exact absurd h (by decide)
      · intro h; linarith
    · rw [if_neg h60]
      exact ⟨fun _ => lt_of_not_ge h60, fun _ => rfl⟩

theorem generateAnalysis_breakdown_weak (p : Pretest) (att : PretestAttempt)
    (ans : List (String × Int)) (tp : TopicPerformance)
    (hmem : tp ∈ (generateAnalysis p att ans).topicBreakdown) :
    tp.performanceLevel = "weak" ↔ tp.percentage < 60 := by
  have hbd : (generateAnalysis p att ans).topicBreakdown =
      (pretestTopicStats p.questions ans).map pStatToPerformance := rfl
  rw [hbd] at hmem
  obtain ⟨kv, hkv, he⟩ := List.mem_map.mp hmem
  rw [← he]
  exact pretestTopicLevel_weak_iff (pStatPct kv.2)

theorem generateAnalysis_weaknesses_empty_iff (p : Pretest)
    (att : PretestAttempt) (ans : List (String × Int)) :
    (generateAnalysis p att ans).weaknesses = [] ↔
      ∀ tp ∈ (generateAnalysis p att ans).topicBreakdown,
        tp.performanceLevel ≠ "weak" := by
  have hw : (generateAnalysis p att ans).weaknesses =
      (pretestTopicStats p.questions ans).filterMap (fun kv =>
        if ¬(pStatPct kv.2 ≥ 80) ∧ ¬(pStatPct kv.2 ≥ 60) then
          some kv.2.topicTitle
        else none) := rfl
  have hbd : (generateAnalysis p att ans).topicBreakdown =
      (pretestTopicStats p.questions ans).map pStatToPerformance := rfl
  rw [hw, hbd, List.filterMap_eq_nil_iff]
  constructor
  · intro h tp hmem hweak
    obtain ⟨kv, hkv, he⟩ := List.mem_map.mp hmem
    have hnone := h kv hkv
    have hlt : pStatPct kv.2 < 60 := by
      rw [← he] at hweak
      exact (pretestTopicLevel_weak_iff (pStatPct kv.2)).mp hweak
    rw [if_pos ⟨fun hge => by linarith, fun hge => by linarith⟩] at hnone
    exact Option.noConfusion hnone
  · intro h kv hkv
    by_cases hc : ¬(pStatPct kv.2 ≥ 80) ∧ ¬(pStatPct kv.2 ≥ 60)
    · exfalso
      refine h (pStatToPerformance kv)
        (List.mem_map_of_mem pStatToPerformance hkv) ?_
      exact (pretestTopicLevel_weak_iff (pStatPct kv.2)).mpr
        (lt_of_not_ge hc.2)
    · rw [if_neg hc]

def c9Pretest : Pretest :=
  { id := "p9", courseId := "c9",
    questions :=
      [{ id := "q1", question := "?", options := ["a", "b"],
         correctAnswer := 0, topicId := some "t1", topicTitle := some "T1" },
       { id := "q2", question := "?", options := ["a", "b"],
         correctAnswer := 0, topicId := some "t1", topicTitle := some "T1" },
       { id := "q3", question := "?", options := ["a", "b"],
         correctAnswer := 0, topicId := some "t1", topicTitle := some "T1" }],
    createdAt := "t0", maxScore := 3 }

def c9Req : PretestSubmissionRequest :=
  { studentId := "s1", courseId := "c9", pretestId := "p9",
    answers := [("q1", 0), ("q2", 0), ("q3", 1)] }

def c9Att : PretestAttempt := mkPretestAttempt c9Pretest c9Req "a9" "t9"

def c9GoodRec : String :=
  "\x7b\"topicId\": \"t1\", \"topicTitle\": \"T1\", \"recommendation\": \"review\", \"resourceUrl\": \"u\", \"resourceType\": \"article\"\x7d"

/-- Claim C9, counterexample: an analysis with overall percentage below
85 whose single topic sits at 66.7% (moderate, below 85) produces no
recommendation — the below-85 fallback never runs because the empty
weaknesses list short-circuits the recommender — contradicting the
claimed fallback selection. -/
theorem c9_counterexample :
    (generateAnalysis c9Pretest c9Att c9Req.answers).percentage < 85 ∧
    (∃ tp ∈ (generateAnalysis c9Pretest c9Att c9Req.answers).topicBreakdown,
      tp.percentage < 85) ∧
    generateRecommendation (generateAnalysis c9Pretest c9Att c9Req.answers)
      (.ok c9GoodRec) = .ok none := by
  decide

/-- Claim C9 (amended): when a recommendation is triggered, the selected
topic is the weak-level topic with the lowest percentage, ties broken by
first occurrence in the breakdown; when no topic is classified weak, no
recommendation is produced at all — the below-85 fallback scan is
unreachable for analyses produced by the analyzer, because the empty
weaknesses list returns early. -/
theorem selectWeakestTopic_spec (p : Pretest) (att : PretestAttempt)
    (ans : List (String × Int)) :
    ((∀ tp ∈ (generateAnalysis p att ans).topicBreakdown,
        tp.performanceLevel ≠ "weak") →
      selectWeakestTopic (generateAnalysis p att ans) = none ∧
      ∀ genOut, generateRecommendation (generateAnalysis p att ans) genOut =
        .ok none) ∧
    ((∃ tp ∈ (generateAnalysis p att ans).topicBreakdown,
        tp.performanceLevel = "weak") →
      ∃ t, selectWeakestTopic (generateAnalysis p att ans) = some t ∧
        t ∈ (generateAnalysis p att ans).topicBreakdown ∧
        t.performanceLevel = "weak" ∧
        (∀ u ∈ (generateAnalysis p att ans).topicBreakdown,
          u.performanceLevel = "weak" → t.percentage ≤ u.percentage) ∧
        ∃ l1 l2, (generateAnalysis p att ans).topicBreakdown = l1 ++ t :: l2 ∧
          (∀ u ∈ l1, u.performanceLevel = "weak" →
            t.percentage < u.percentage)) := by
  constructor
  · intro hnw
    have hwe : (generateAnalysis p att ans).weaknesses = [] :=
      (generateAnalysis_weaknesses_empty_iff p att ans).mpr hnw
    have hsel : selectWeakestTopic (generateAnalysis p att ans) = none := by
      rw [selectWeakestTopic, if_pos (List.isEmpty_iff.mpr hwe)]
    refine ⟨hsel, fun genOut => ?_⟩
    rw [generateRecommendation, hsel]
  · rintro ⟨tp0, hmem0, hweak0⟩
    have hwne : ¬ (generateAnalysis p att ans).weaknesses = [] := by
      intro hwe
      exact (generateAnalysis_weaknesses_empty_iff p att ans).mp hwe tp0
        hmem0 hweak0
    have hlt0 : tp0.percentage < 100 := by
      have := (generateAnalysis_breakdown_weak p att ans tp0 hmem0).mp hweak0
      linarith
    have hbw : ∃ t, bestWeak (generateAnalysis p att ans).topicBreakdown 100 =
        some t := by
      cases hb : bestWeak (generateAnalysis p att ans).topicBreakdown 100 with
      | none =>
        exact absurd ⟨hweak0, hlt0⟩
          ((bestWeak_eq_none_iff _ 100).mp hb tp0 hmem0)
      | some t => exact ⟨t, rfl⟩
    obtain ⟨t, hb⟩ := hbw
    obtain ⟨hmem, hw, -, hmin, l1, l2, hsplit, hstrict⟩ :=
      bestWeak_eq_some _ 100 t hb
    have hsel : selectWeakestTopic (generateAnalysis p att ans) = some t := by
      rw [selectWeakestTopic,
        if_neg (fun he => hwne (List.isEmpty_iff.mp he)),
        selectLoopGo_eq_bestWeak, hb]
    refine ⟨t, hsel, hmem, hw, ?_, l1, l2, hsplit, ?_⟩
    · intro u hu huw
      have hul : u.percentage < 100 := by
        have := (generateAnalysis_breakdown_weak p att ans u hu).mp huw
        linarith
      exact hmin u hu huw hul
    · intro u hu huw
      have humem : u ∈ (generateAnalysis p att ans).topicBreakdown := by
        rw [hsplit]
        exact List.mem_append.mpr (Or.inl hu)
      have hul : u.percentage < 100 := by
        have := (generateAnalysis_breakdown_weak p att ans u humem).mp huw
        linarith
      exact hstrict u hu huw hul

def c9bPretest : Pretest :=
  { id := "p9b", courseId := "c9b",
    questions :=
      [{ id := "q1", question := "?", options := ["a", "b"],
         correctAnswer := 0, topicId := some "t1", topicTitle := some "T1" },
       { id := "q2", question := "?", options := ["a", "b"],
         correctAnswer := 0, topicId := some "t2", topicTitle := some "T2" }],
    createdAt := "t0", maxScore := 2 }

def c9bReq : PretestSubmissionRequest :=
  { studentId := "s1", courseId := "c9b", pretestId := "p9b",
    answers := [("q1", 1), ("q2", 0)] }

def c9bAtt : PretestAttempt := mkPretestAttempt c9bPretest c9bReq "a9b" "t9b"

theorem selectWeakestTopic_spec_witness :
    ∃ t, selectWeakestTopic (generateAnalysis c9bPretest c9bAtt
        c9bReq.answers) = some t ∧
      t ∈ (generateAnalysis c9bPretest c9bAtt c9bReq.answers).topicBreakdown ∧
      t.performanceLevel = "weak" ∧
      (∀ u ∈ (generateAnalysis c9bPretest c9bAtt c9bReq.answers).topicBreakdown,
        u.performanceLevel = "weak" → t.percentage ≤ u.percentage) ∧
      ∃ l1 l2, (generateAnalysis c9bPretest c9bAtt
          c9bReq.answers).topicBreakdown = l1 ++ t :: l2 ∧
        (∀ u ∈ l1, u.performanceLevel = "weak" →
          t.percentage < u.percentage) :=
  (selectWeakestTopic_spec c9bPretest c9bAtt c9bReq.answers).2 (by decide)

end Athens
